import Mathlib

/-!
Verification development for the Knowledge Crystal retrieval engine
(`backend/app/knowledge_crystal/`): text segmentation, embedding gateway,
vector index wrapper, page repository, retrieval service, and the two
synthesis (RAG) entry points.

The Python sources are shallowly embedded: text is `List Char`, similarity
scores are `ℚ`, the MongoDB page collection is a list of page records, the
ChromaDB collection is a list of chunk entries, and every external backend
(embedding inference, generative model, index I/O faults) is an explicit
parameter.  Timestamps and log output are omitted; they play no role in the
properties below.
-/

set_option linter.unusedVariables false

deriving instance DecidableEq for Except

/-! ## Text primitives -/

/-- Text is modelled as a list of characters. -/
abbrev Str := List Char

/-- Characters that end a sentence, from the regex `(?<=[.!?])\s+` in
`embedding_service.py` (`chunk_text`). -/
def sentenceEnders : Str := ".!?".toList

def isSentEnd (c : Char) : Bool := c ∈ sentenceEnders

/-- The space character, used by `" ".join(...)`. -/
def spChar : Char := Char.ofNat 32

/-- The comma character, used by `",".join(tags)`. -/
def commaChar : Char := Char.ofNat 44

/-- The ASCII apostrophe, used in some literal service messages. -/
def quoteChar : Char := Char.ofNat 39

/-- Python `str.strip()`: remove leading and trailing whitespace. -/
def strip (l : Str) : Str :=
  ((l.dropWhile Char.isWhitespace).reverse.dropWhile Char.isWhitespace).reverse

/-- Number of words in Python `s.split()` (maximal non-whitespace runs). -/
def wordCount : Str → Nat :=
  go false
where
  go : Bool → Str → Nat
    | _, [] => 0
    | inWord, c :: rest =>
      if c.isWhitespace then go false rest
      else (if inWord then 0 else 1) + go true rest

/-- Python `sep.join(parts)` for a one-character separator. -/
def joinWith (sep : Char) : List Str → Str
  | [] => []
  | [x] => x
  | x :: xs => x ++ sep :: joinWith sep xs

/-- `" ".join(parts)`. -/
def joinSp : List Str → Str := joinWith spChar

/-- Python `l[-k:]` (for `k = 0` this is the whole list). -/
def lastSlice (k : Nat) (l : List Str) : List Str :=
  if k = 0 then l else l.drop (l.length - k)

/-- One pass of `re.split(r'(?<=[.!?])\s+', text)`: a separator is a maximal
whitespace run whose preceding character is sentence-ending punctuation.
`acc` is the current piece, reversed; `inSep` means we are consuming the
whitespace run of a separator. -/
def sentBoundary (c : Char) (acc : Str) : Bool :=
  c.isWhitespace && isSentEnd (acc.headD spChar) && !acc.isEmpty

def splitSentGo : Str → Str → Bool → List Str
  | [], acc, _ => [acc.reverse]
  | c :: rest, acc, inSep =>
    if inSep then
      if c.isWhitespace then splitSentGo rest acc true
      else splitSentGo rest [c] false
    else if sentBoundary c acc then
      acc.reverse :: splitSentGo rest [] true
    else splitSentGo rest (c :: acc) false

/-- `re.split(r'(?<=[.!?])\s+', text)` from `EmbeddingService.chunk_text`. -/
def splitSentences (text : Str) : List Str :=
  splitSentGo text [] false

/-! ## Text segmenter (`EmbeddingService.chunk_text`) -/

/-- Accumulator state of the chunking loop: emitted chunks, the current
chunk as a list of sentences, and its running word count. -/
structure ChunkState where
  chunks : List Str
  current : List Str
  count : Nat
deriving DecidableEq

/-- The body of the `for sentence in sentences` loop in `chunk_text`. -/
def chunkStep (chunkSize overlap : Nat) (st : ChunkState) (s : Str) : ChunkState :=
  let sw := wordCount s
  if chunkSize < st.count + sw ∧ st.current ≠ [] then
    let ct := joinSp st.current
    let chunks1 := if strip ct ≠ [] then st.chunks ++ [ct] else st.chunks
    let ovText := if 1 < st.current.length
      then joinSp (lastSlice (overlap / 10) st.current) else []
    if ovText ≠ [] then
      { chunks := chunks1, current := [ovText] ++ [s], count := wordCount ovText + sw }
    else
      { chunks := chunks1, current := [s], count := sw }
  else
    { chunks := st.chunks, current := st.current ++ [s], count := st.count + sw }

/-- `EmbeddingService.chunk_text(text, chunk_size, overlap)`:
split into sentences, accumulate into chunks of at most `chunkSize` words
(never splitting a sentence), seed each new chunk with an overlap tail,
and flush the final accumulation. -/
def chunk_text (text : Str) (chunkSize overlap : Nat) : List Str :=
  if strip text = [] then []
  else
    let sentences := splitSentences text
    let st := sentences.foldl (chunkStep chunkSize overlap) ⟨[], [], 0⟩
    if st.current ≠ [] ∧ strip (joinSp st.current) ≠ [] then
      st.chunks ++ [joinSp st.current]
    else st.chunks

/-! ## Embedding gateway (`EmbeddingService`) -/

/-- Embedding vectors are opaque rational vectors. -/
abbrev Vec := List ℚ

/-- The external embedding inference backend (`/api/embeddings`): a map
from (stripped) text to either a vector or a transport/API failure. -/
abbrev EmbedBackend := Str → Except Str Vec

/-- `EmbeddingService.embed_query`: a blank query raises `ValueError`
(here: a typed error); otherwise the stripped query is sent to the
backend, whose failure propagates. -/
def embed_query (be : EmbedBackend) (query : Str) : Except Str Vec :=
  if strip query = [] then .error ("Query cannot be empty".toList)
  else be (strip query)

/-- `EmbeddingService.generate_embeddings`: strip the texts, drop empty
ones, and embed each in order; any backend failure aborts the batch. -/
def generate_embeddings (be : EmbedBackend) (texts : List Str) : Except Str (List Vec) :=
  if texts = [] then .ok []
  else
    let valid := (texts.map strip).filter (fun t => !t.isEmpty)
    if valid = [] then .ok []
    else valid.mapM be

/-- `EmbeddingService.process_content`: chunk, embed, and check the
chunk/embedding count invariant. -/
def process_content (be : EmbedBackend) (content : Str) (chunkSize overlap : Nat) :
    Except Str (List Str × List Vec) :=
  let chunks := chunk_text content chunkSize overlap
  if chunks = [] then .error ("No chunks generated from content".toList)
  else
    match generate_embeddings be chunks with
    | .error e => .error e
    | .ok embs =>
      if embs.length ≠ chunks.length then
        .error ("Mismatch between chunks and embeddings".toList)
      else .ok (chunks, embs)

/-! ## Vector index (`VectorStoreManager`, ChromaDB wrapper) -/

/-- Scalar metadata stored with every chunk (ChromaDB only accepts scalar
values, so `tags` is a comma-joined string).  Missing keys are modelled by
the empty string / zero, matching the dictionaries built in
`services.py`. -/
structure Meta where
  page_id : Str := []
  category : Str := []
  mission_id : Str := []
  country : Str := []
  visibility : Str := []
  author : Str := []
  tags : Str := []
  chunk_index : Nat := 0
  title : Str := []
deriving DecidableEq

/-- Filterable scalar metadata fields of a chunk entry. -/
inductive MField where
  | pageId | category | missionId | country | visibility | author | tags | title
deriving DecidableEq

def getField : MField → Meta → Str
  | .pageId, m => m.page_id
  | .category, m => m.category
  | .missionId, m => m.mission_id
  | .country, m => m.country
  | .visibility, m => m.visibility
  | .author, m => m.author
  | .tags, m => m.tags
  | .title, m => m.title

/-- A ChromaDB `where` clause: a conjunction of equality constraints.
The empty list is the absent clause (unrestricted). -/
abbrev Filters := List (MField × Str)

def matchesFilters (fs : Filters) (m : Meta) : Bool :=
  fs.all (fun fv => getField fv.1 m = fv.2)

/-- One stored chunk entry: id `{page_id}_chunk_{i}`, the chunk text, its
embedding vector, and the metadata snapshot. -/
structure VSEntry where
  chunk_id : Str
  content : Str
  embedding : Vec
  meta : Meta
deriving DecidableEq

/-- The ChromaDB collection, in insertion order. -/
abbrev VS := List VSEntry

/-- Clamp a similarity value into [0,1]: `max(0, min(1, similarity))`. -/
def clamp01 (x : ℚ) : ℚ := max 0 (min 1 x)

/-- `collection.query(...)`: filter by the `where` clause, rank by
distance ascending (the distance metric itself is an opaque parameter
`dist`), and return the first `n` hits.  `insertionSort` is stable, so
ties keep insertion order. -/
def collectionQuery (dist : Vec → Vec → ℚ) (vs : VS) (qe : Vec) (n : Nat)
    (fs : Filters) : List (VSEntry × ℚ) :=
  let scored := (vs.filter (fun e => matchesFilters fs e.meta)).map
    (fun e => (e, dist qe e.embedding))
  (scored.insertionSort (fun a b => a.2 ≤ b.2)).take n

/-- A formatted search hit as returned by `VectorStoreManager.search`. -/
structure FR where
  chunk_id : Str
  content : Str
  similarity_score : ℚ
  metadata : Meta
deriving DecidableEq

/-- `VectorStoreManager.search`: the whole body runs under
`try/except`, returning `[]` on any backend exception (`raiseE` injects
such an exception); otherwise distances become clamped similarities
`max(0, min(1, 1 - distance))`. -/
def vsSearch (dist : Vec → Vec → ℚ) (vs : VS) (qe : Vec) (n : Nat)
    (fs : Filters) (raiseE : Option Str) : List FR :=
  match raiseE with
  | some _ => []
  | none =>
    (collectionQuery dist vs qe n fs).map (fun ed =>
      { chunk_id := ed.1.chunk_id, content := ed.1.content,
        similarity_score := clamp01 (1 - ed.2), metadata := ed.1.meta })

/-- Result dictionary of `VectorStoreManager.add_chunks`. -/
structure AddRes where
  success : Bool
  chunks_added : Nat := 0
  error : Option Str := none
deriving DecidableEq

/-- `collection.add(ids, embeddings, metadatas, documents)`: ChromaDB
validates that all four lists have the same length and otherwise raises;
`raiseE` injects any other backend exception.  On success the entries are
appended in order. -/
def collectionAdd (raiseE : Option Str) (ids : List Str) (embs : List Vec)
    (metas : List Meta) (docs : List Str) (vs : VS) : Except Str VS :=
  match raiseE with
  | some e => .error e
  | none =>
    if ids.length = embs.length ∧ ids.length = metas.length ∧ ids.length = docs.length then
      .ok (vs ++ (ids.zip (embs.zip (metas.zip docs))).map (fun x =>
        { chunk_id := x.1, embedding := x.2.1, meta := x.2.2.1, content := x.2.2.2 }))
    else .error ("collection length mismatch".toList)

/-- Render `i` in decimal, for chunk ids `{page_id}_chunk_{i}`. -/
def natStr (i : Nat) : Str := (toString i).toList

/-- The chunk ids `{page_id}_chunk_{i}` for `i < n`. -/
def addIds (page_id : Str) (n : Nat) : List Str :=
  (List.range n).map (fun i => page_id ++ "_chunk_".toList ++ natStr i)

/-- The `while len(metadata) < len(chunks): metadata.append(\x7b\x7d)`
padding loop. -/
def padMeta (n : Nat) (md0 : List Meta) : List Meta :=
  md0 ++ List.replicate (n - md0.length) ({} : Meta)

/-- The loop stamping `page_id`, `chunk_index` and `title` onto every
metadata dictionary. -/
def stampMeta (page_id title : Str) (md1 : List Meta) : List Meta :=
  md1.enum.map (fun im =>
    { im.2 with page_id := page_id, chunk_index := im.1, title := title })

/-- `VectorStoreManager.add_chunks`: reject empty or count-mismatched
chunks/embeddings before any write; pad a short metadata list with empty
dictionaries; stamp `page_id`, `chunk_index` and `title` on every
metadata entry; then perform the single `collection.add` call under
`try/except`. -/
def add_chunks (raiseE : Option Str) (page_id : Str) (chunks : List Str)
    (title : Str) (embeddings : List Vec) (metadata : Option (List Meta))
    (vs : VS) : AddRes × VS :=
  if chunks = [] ∨ embeddings = [] then
    ({ success := false, error := some ("Empty chunks or embeddings".toList) }, vs)
  else if chunks.length ≠ embeddings.length then
    ({ success := false, error := some ("Chunks and embeddings count mismatch".toList) }, vs)
  else
    match collectionAdd raiseE (addIds page_id chunks.length) embeddings
        (stampMeta page_id title (padMeta chunks.length (metadata.getD [])))
        chunks vs with
    | .ok vs1 =>
      ({ success := true, chunks_added := chunks.length }, vs1)
    | .error e =>
      ({ success := false, error := some e }, vs)

/-- `VectorStoreManager.delete_chunks`: remove every entry whose
`page_id` matches; idempotent, returns the number removed. -/
def delete_chunks (page_id : Str) (vs : VS) : Nat × VS :=
  ((vs.filter (fun e => decide (e.meta.page_id = page_id))).length,
   vs.filter (fun e => decide (e.meta.page_id ≠ page_id)))

/-! ## Page repository data (`kb_pages` MongoDB collection) -/

/-- One `kb_pages` document.  `metadata` and the timestamps are omitted:
no claim depends on them. -/
structure Page where
  id : Str
  title : Str
  content : Str
  category : Str
  mission_id : Option Str := none
  country : Option Str := none
  tags : List Str := []
  visibility : Str
  author : Str
  status : Str
  chunk_count : Nat := 0
deriving DecidableEq

abbrev DB := List Page

/-- `collection.find_one({"_id": ObjectId(page_id)})`. -/
def findPage (db : DB) (pid : Str) : Option Page :=
  db.find? (fun p => decide (p.id = pid))

/-- `collection.update_one({"_id": id}, {"$set": {"status": s}})`. -/
def setStatus (db : DB) (pid : Str) (s : Str) : DB :=
  db.map (fun p => if p.id = pid then { p with status := s } else p)

/-! ## Retrieval service (`KBSearchService.search`) -/

/-- `SearchQuery` (models.py).  `limit` is carried separately, as in the
`search(query, limit)` signature. -/
structure SQ where
  query : Str
  category : Option Str := none
  tags : Option (List Str) := none
  country : Option Str := none
  visibility : Option Str := none
deriving DecidableEq

/-- `SearchResult` (models.py). -/
structure SearchResult where
  document_id : Str
  title : Str
  mission_id : Option Str := none
  country : Option Str := none
  long_summary : Str
  matched_points : List Str
  category : Str
  tags : List Str := []
  similarity_score : ℚ
  author : Str
deriving DecidableEq

/-- The full environment of the search pipeline: the distance metric of the
index, the embedding backend, the two per-document generation oracles
(`_generate_summary` and `_extract_matched_points` are total: every failure
inside them falls back to truncated raw text), and the two stores. -/
structure Env where
  dist : Vec → Vec → ℚ
  be : EmbedBackend
  summaryOf : Str → Str
  pointsOf : Str → Str → Str → List Str
  db : DB
  vs : VS

/-- `if query.country and metadata.get("country") != query.country`. -/
def countrySkip (q : SQ) (m : Meta) : Bool :=
  match q.country with
  | some ct => decide (ct ≠ []) && decide (m.country ≠ ct)
  | none => false

/-- `if query.visibility and page.get("visibility") != query.visibility`. -/
def visSkip (q : SQ) (p : Page) : Bool :=
  match q.visibility with
  | some v => decide (v ≠ []) && decide (p.visibility ≠ v)
  | none => false

/-- `if query.tags:` then skip unless the page's tag set intersects. -/
def tagSkip (q : SQ) (p : Page) : Bool :=
  match q.tags with
  | some ts => decide (ts ≠ []) && decide (p.tags.filter (fun t => t ∈ ts) = [])
  | none => false

/-- Construction of one `SearchResult` from the looked-up page and the
matching chunk. -/
def mkResult (env : Env) (q : SQ) (page : Page) (c : FR) : SearchResult :=
  { document_id := page.id, title := page.title,
    mission_id := page.mission_id, country := page.country,
    long_summary := env.summaryOf page.content,
    matched_points := env.pointsOf page.content q.query c.content,
    category := page.category, tags := page.tags,
    similarity_score := c.similarity_score, author := page.author }

/-- The `for chunk in chunks` loop of `KBSearchService.search`:
skip already-seen pages, apply the country / visibility / tags
post-filters, emit one result per page, and stop at `limit`. -/
def searchLoop (env : Env) (q : SQ) (limit : Nat) :
    List FR → List Str → List SearchResult → List SearchResult
  | [], _, acc => acc
  | c :: rest, seen, acc =>
    let pid := c.metadata.page_id
    if pid ∈ seen then searchLoop env q limit rest seen acc
    else if countrySkip q c.metadata then searchLoop env q limit rest seen acc
    else
      match findPage env.db pid with
      | none => searchLoop env q limit rest seen acc
      | some page =>
        if visSkip q page then searchLoop env q limit rest seen acc
        else if tagSkip q page then searchLoop env q limit rest seen acc
        else
          let acc2 := acc ++ [mkResult env q page c]
          if limit ≤ acc2.length then acc2
          else searchLoop env q limit rest (seen ++ [pid]) acc2

/-- The category filter handed to the vector store (the only filter the
index applies natively). -/
def catFilters (q : SQ) : Filters :=
  match q.category with
  | some c => [(MField.category, c)]
  | none => []

/-- The candidate chunk list fetched from the vector store: `limit * 3`
nearest neighbours, pre-filtered by category. -/
def kbCandidates (env : Env) (q : SQ) (limit : Nat) : List FR :=
  match embed_query env.be q.query with
  | .error _ => []
  | .ok qe => vsSearch env.dist env.vs qe (limit * 3) (catFilters q) none

/-- `KBSearchService.search`.  The Boolean records whether the vector
store was queried at all: a failed query embedding is caught, logged, and
turned into an empty result list without touching the index. -/
def kbSearchCore (env : Env) (q : SQ) (limit : Nat) : List SearchResult × Bool :=
  match embed_query env.be q.query with
  | .error _ => ([], false)
  | .ok qe =>
    (searchLoop env q limit
      (vsSearch env.dist env.vs qe (limit * 3) (catFilters q) none) [] [], true)

def kbSearch (env : Env) (q : SQ) (limit : Nat) : List SearchResult :=
  (kbSearchCore env q limit).1

/-- The first candidate chunk that belongs to page `pid` and survives the
per-chunk country filter. -/
def firstMatch (q : SQ) (cands : List FR) (pid : Str) : Option FR :=
  cands.find? (fun c => decide (c.metadata.page_id = pid) && !countrySkip q c.metadata)

/-! ## Synthesis services (`KBRAGService.query`, `KBChatService.chat_query`) -/

/-- `settings.OLLAMA_MODEL` default. -/
def ollamaModel : Str := "llama3.2:3b".toList

def toLowerStr (s : Str) : Str := s.map Char.toLower

def catAgent : Str := "agent".toList

def catTechnician : Str := "technician".toList

/-- The role-to-category map at the top of `chat_query`:
`agent → DocumentCategory.AGENT`, `technician → DocumentCategory.TECHNICIAN`,
anything else is rejected. -/
def roleCategory (role : Str) : Option Str :=
  if toLowerStr role = catAgent then some catAgent
  else if toLowerStr role = catTechnician then some catTechnician
  else none

/-- `"Invalid user role. Must be 'agent' or 'technician'."` -/
def invalidRoleAnswer : Str :=
  "Invalid user role. Must be ".toList ++ [quoteChar] ++ catAgent ++ [quoteChar]
    ++ " or ".toList ++ [quoteChar] ++ catTechnician ++ [quoteChar] ++ ".".toList

/-- The canned no-results chat answer (role is interpolated). -/
def noDocsAnswer (role : Str) : Str :=
  "No relevant documents found in the Knowledge Crystal for ".toList ++ role
    ++ "s. Please try a different query or contact an administrator to add relevant documentation.".toList

/-- `ChatQueryRequest` (models.py). -/
structure ChatReq where
  query : Str
  user_role : Str
  limit : Nat := 5
  tags : Option (List Str) := none
deriving DecidableEq

/-- `ChatQueryResponse` (models.py). -/
structure ChatResp where
  answer : Str
  matched_documents : List SearchResult
  confidence : ℚ
  model_used : Str := ollamaModel
deriving DecidableEq

/-- Mean similarity of a result set (`sum(...) / len(...)`). -/
def meanScore (rs : List SearchResult) : ℚ :=
  (rs.map (fun r => r.similarity_score)).sum / (rs.length : ℚ)

/-- The `SearchQuery` built by `chat_query` for the resolved category. -/
def chatSQ (req : ChatReq) (cat : Str) : SQ :=
  { query := req.query, category := some cat, tags := req.tags }

/-- `KBChatService.chat_query`.  `gen` is the outcome of the generative
call: `.ok answer` when the HTTP call returns (including non-200 statuses,
whose answer is an error string), `.error e` when it raises, in which case
the handler returns the matched documents with confidence 0.0. -/
def chat_query (env : Env) (gen : Except Str Str) (req : ChatReq) : ChatResp :=
  match roleCategory req.user_role with
  | none =>
    { answer := invalidRoleAnswer, matched_documents := [], confidence := 0 }
  | some cat =>
    let matched := kbSearch env (chatSQ req cat) req.limit
    if matched = [] then
      { answer := noDocsAnswer req.user_role, matched_documents := [], confidence := 0 }
    else
      match gen with
      | .ok ans =>
        { answer := ans, matched_documents := matched,
          confidence := min 1 (meanScore matched) }
      | .error e =>
        { answer := "Error generating response: ".toList ++ e,
          matched_documents := matched, confidence := 0 }

/-- `QueryRequest` (models.py).  Note `category` exists on the request but
`KBRAGService.query` never forwards it to the `SearchQuery`. -/
structure QueryReq where
  question : Str
  limit : Nat := 5
  category : Option Str := none
  visibility : Option Str := none
  tags : Option (List Str) := none
deriving DecidableEq

/-- `QueryResponse` (models.py). -/
structure QueryResp where
  answer : Str
  sources : List SearchResult
  confidence : ℚ
  model_used : Str := ollamaModel
deriving DecidableEq

/-- `KBRAGService.query`.  With a non-empty source list the context
builder evaluates `s.chunk_snippet` — an attribute `SearchResult` does not
define — so the call raises `AttributeError` before reaching the
generative model; this is modelled as the `.error` outcome.  The raise
happens outside the `try` block, so it propagates to the caller. -/
def ragSQ (req : QueryReq) : SQ :=
  { query := req.question, tags := req.tags, visibility := req.visibility }

def rag_query (env : Env) (gen : Except Str Str) (req : QueryReq) :
    Except Str QueryResp :=
  let sources := kbSearch env (ragSQ req) req.limit
  if sources = [] then
    .ok { answer := "No relevant information found in the knowledge base.".toList,
          sources := [], confidence := 0 }
  else
    .error ("AttributeError: ".toList ++ [quoteChar] ++ "SearchResult".toList
      ++ [quoteChar] ++ " object has no attribute ".toList ++ [quoteChar]
      ++ "chunk_snippet".toList ++ [quoteChar])

/-! ## Page service (`KBPageService.create_page` / `update_page`) -/

/-- `KBPageCreate` (models.py). -/
structure PageCreate where
  title : Str
  content : Str
  category : Str
  mission_id : Option Str := none
  country : Option Str := none
  tags : List Str := []
  visibility : Str := "public".toList
  author : Str := "system".toList
deriving DecidableEq

/-- `KBPageUpdate` (models.py); the free-form `metadata` field is omitted
(it is never read by any property below). -/
structure PageUpdate where
  title : Option Str := none
  content : Option Str := none
  tags : Option (List Str) := none
  visibility : Option Str := none
deriving DecidableEq

/-- Pipeline events of `create_page`, in execution order. -/
inductive Ev where
  | processContentEv
  | insertDocEv (status : Str)
  | addChunksEv
  | setStatusEv (status : Str)
deriving DecidableEq

structure CreateRes where
  success : Bool
  page_id : Option Str := none
  chunks_created : Nat := 0
  error : Option Str := none
deriving DecidableEq

/-- The per-chunk metadata dictionary built in `create_page`. -/
def createMeta (pd : PageCreate) (newId : Str) : Meta :=
  { page_id := newId, category := pd.category,
    mission_id := pd.mission_id.getD [], country := pd.country.getD [],
    visibility := pd.visibility, author := pd.author,
    tags := joinWith commaChar pd.tags }

/-- `KBPageService.create_page`: chunk and embed the content first
(failure returns before anything is persisted); then insert the page
document with status `indexing`; then `add_chunks`; then flip the status
to `indexed` or `error`.  `newId` is the fresh `ObjectId`; the event list
records the order of the externally visible steps. -/
def create_page (be : EmbedBackend) (addRaise : Option Str) (newId : Str)
    (pd : PageCreate) (db : DB) (vs : VS) : CreateRes × DB × VS × List Ev :=
  match process_content be pd.content 500 100 with
  | .error e =>
    ({ success := false,
       error := some ("Failed to process content: ".toList ++ e) },
     db, vs, [.processContentEv])
  | .ok ce =>
    let chunks := ce.1
    let doc : Page :=
      { id := newId, title := pd.title, content := pd.content,
        category := pd.category, mission_id := pd.mission_id,
        country := pd.country, tags := pd.tags, visibility := pd.visibility,
        author := pd.author, status := "indexing".toList,
        chunk_count := chunks.length }
    let db1 := db ++ [doc]
    let md := chunks.map (fun _ => createMeta pd newId)
    let av := add_chunks addRaise newId chunks pd.title ce.2 (some md) vs
    if av.1.success then
      ({ success := true, page_id := some newId, chunks_created := chunks.length },
       setStatus db1 newId ("indexed".toList), av.2,
       [.processContentEv, .insertDocEv ("indexing".toList), .addChunksEv,
        .setStatusEv ("indexed".toList)])
    else
      ({ success := false,
         error := some ("Failed to index chunks".toList) },
       setStatus db1 newId ("error".toList), av.2,
       [.processContentEv, .insertDocEv ("indexing".toList), .addChunksEv,
        .setStatusEv ("error".toList)])

structure UpdRes where
  success : Bool
  error : Option Str := none
deriving DecidableEq

/-- The `$set` document at the end of `update_page`: truthy title /
content / visibility, `tags is not None`. -/
def applyFields (upd : PageUpdate) (p : Page) : Page :=
  let p1 := match upd.title with
    | some t => if t ≠ [] then { p with title := t } else p
    | none => p
  let p2 := match upd.content with
    | some c => if c ≠ [] then { p1 with content := c } else p1
    | none => p1
  let p3 := match upd.tags with
    | some ts => { p2 with tags := ts }
    | none => p2
  match upd.visibility with
  | some v => if v ≠ [] then { p3 with visibility := v } else p3
  | none => p3

def mongoUpdate (pid : Str) (upd : PageUpdate) (db : DB) : DB :=
  db.map (fun p => if p.id = pid then applyFields upd p else p)

/-- The per-chunk metadata dictionary built in `update_page` (old page
fields, with truthy-updated visibility and tags). -/
def updateMeta (ex : Page) (upd : PageUpdate) (pid : Str) : Meta :=
  let tags := match upd.tags with
    | some ts => if ts ≠ [] then ts else ex.tags
    | none => ex.tags
  { page_id := pid, category := ex.category,
    mission_id := ex.mission_id.getD [], country := ex.country.getD [],
    visibility := (match upd.visibility with
      | some v => if v ≠ [] then v else ex.visibility
      | none => ex.visibility),
    author := ex.author, tags := joinWith commaChar tags }

/-- `KBPageService.update_page`: if the (truthy) new content differs from
the stored content, delete the old chunks, re-chunk/re-embed, and
`add_chunks` with the new content; any re-index failure returns
immediately — after the deletion, before the Mongo `$set`.  Otherwise (and
after a successful re-index) the `$set` of the changed fields runs. -/
def update_page (be : EmbedBackend) (addRaise : Option Str) (pid : Str)
    (upd : PageUpdate) (db : DB) (vs : VS) : UpdRes × DB × VS :=
  match findPage db pid with
  | none => ({ success := false, error := some ("Page not found".toList) }, db, vs)
  | some ex =>
    let changed : Bool := match upd.content with
      | some c => decide (c ≠ []) && decide (c ≠ ex.content)
      | none => false
    if changed then
      match upd.content with
      | none => ({ success := false }, db, vs)
      | some c =>
        let vs1 := (delete_chunks pid vs).2
        match process_content be c 500 100 with
        | .error e =>
          ({ success := false,
             error := some ("Failed to process content: ".toList ++ e) },
           db, vs1)
        | .ok ce =>
          let title := match upd.title with
            | some t => if t ≠ [] then t else ex.title
            | none => ex.title
          let md := ce.1.map (fun _ => updateMeta ex upd pid)
          let av := add_chunks addRaise pid ce.1 title ce.2 (some md) vs1
          if av.1.success then
            ({ success := true }, mongoUpdate pid upd db, av.2)
          else
            ({ success := false,
               error := some ("Failed to re-index content".toList) },
             db, av.2)
    else
      ({ success := true }, mongoUpdate pid upd db, vs)

/-! ## Concrete fixtures used by witnesses and counterexamples -/

/-- An embedding backend that always succeeds (with an opaque vector). -/
def beOK : EmbedBackend := fun _ => .ok []

/-- An embedding backend that is down. -/
def beFail : EmbedBackend := fun _ => .error ("connection refused".toList)

/-- A trivial distance metric. -/
def dist0 : Vec → Vec → ℚ := fun _ _ => 0

/-- A category-`agent` page about a mission in Germany. -/
def pageP1 : Page :=
  { id := "p1".toList, title := "Mission Report Berlin".toList,
    content := "Operation completed in Germany.".toList,
    category := catAgent, mission_id := some ("m7".toList),
    country := some ("Germany".toList), tags := [],
    visibility := "public".toList, author := "admin".toList,
    status := "indexed".toList, chunk_count := 1 }

/-- The single indexed chunk of `pageP1`. -/
def entryP1 : VSEntry :=
  { chunk_id := "p1_chunk_0".toList,
    content := "Operation completed in Germany.".toList,
    embedding := [],
    meta := { page_id := "p1".toList, category := catAgent,
              mission_id := "m7".toList, country := "Germany".toList,
              visibility := "public".toList, author := "admin".toList,
              title := "Mission Report Berlin".toList } }

/-- A one-document environment: `pageP1` indexed under category `agent`. -/
def envA : Env :=
  { dist := dist0, be := beOK,
    summaryOf := fun c => c.take 500,
    pointsOf := fun _ _ ch => [ch.take 200],
    db := [pageP1], vs := [entryP1] }

def chatReqAgent : ChatReq :=
  { query := "What operations happened in Germany".toList,
    user_role := "agent".toList, limit := 5 }

def chatReqTech : ChatReq :=
  { query := "Mission Report Berlin".toList,
    user_role := "technician".toList, limit := 5 }

/-! ## Lemmas about the text primitives -/

theorem dropWhile_forall_iff (p : Char → Bool) (l : Str) :
    (∀ a ∈ l.dropWhile p, p a) ↔ ∀ a ∈ l, p a := by
  constructor
  · intro h a ha
    induction l with
    | nil => cases ha
    | cons x t ih =>
      by_cases hx : p x
      · rcases List.mem_cons.mp ha with rfl | hat
        · exact hx
        · exact ih (by simpa [List.dropWhile_cons, hx] using h) hat
      · have : x :: t = (x :: t).dropWhile p := by
          simp [List.dropWhile_cons, hx]
        exact h a (this ▸ ha)
  · intro h a ha
    exact h a ((List.dropWhile_sublist p).mem ha)

/-- `strip l` is empty exactly when `l` is all whitespace. -/
theorem strip_eq_nil (l : Str) :
    strip l = [] ↔ ∀ c ∈ l, c.isWhitespace := by
  unfold strip
  rw [List.reverse_eq_nil_iff, List.dropWhile_eq_nil_iff]
  constructor
  · intro h
    rw [← dropWhile_forall_iff Char.isWhitespace l]
    intro a ha
    exact h a (List.mem_reverse.mpr ha)
  · intro h a ha
    exact h a ((List.dropWhile_sublist _).mem (List.mem_reverse.mp ha))

/-- A non-whitespace character survives into one of the regex split
pieces. -/
theorem mem_splitSentGo (c : Char) (hc : ¬c.isWhitespace) :
    ∀ (l : Str) (acc : Str) (inSep : Bool), (inSep = true → acc = []) →
    (c ∈ l ∨ c ∈ acc) → ∃ s ∈ splitSentGo l acc inSep, c ∈ s := by
  intro l
  induction l with
  | nil =>
    intro acc inSep _ hmem
    rcases hmem with h | h
    · cases h
    · exact ⟨acc.reverse, by simp [splitSentGo], List.mem_reverse.mpr h⟩
  | cons x rest ih =>
    intro acc inSep hsep hmem
    cases inSep with
    | true =>
      have hacc : acc = [] := hsep rfl
      subst hacc
      by_cases hws : x.isWhitespace
      · have hcl : c ∈ rest := by
          rcases hmem with h | h
          · rcases List.mem_cons.mp h with rfl | h
            · exact absurd hws hc
            · exact h
          · cases h
        simpa [splitSentGo, hws] using ih [] true (fun _ => rfl) (Or.inl hcl)
      · have hcm : c ∈ rest ∨ c ∈ [x] := by
          rcases hmem with h | h
          · rcases List.mem_cons.mp h with rfl | h
            · exact Or.inr (by simp)
            · exact Or.inl h
          · cases h
        simpa [splitSentGo, hws] using ih [x] false (by simp) hcm
    | false =>
      by_cases hb : sentBoundary x acc = true
      · have hxws : x.isWhitespace := by
          simp only [sentBoundary, Bool.and_eq_true] at hb
          exact hb.1.1
        have heq : splitSentGo (x :: rest) acc false
            = acc.reverse :: splitSentGo rest [] true := by
          simp only [splitSentGo]
          rw [if_neg (by simp), if_pos hb]
        rcases hmem with h | h
        · rcases List.mem_cons.mp h with rfl | h
          · exact absurd hxws hc
          · obtain ⟨s, hs, hcs⟩ := ih [] true (fun _ => rfl) (Or.inl h)
            exact ⟨s, by rw [heq]; exact List.mem_cons_of_mem _ hs, hcs⟩
        · exact ⟨acc.reverse, by rw [heq]; exact List.mem_cons_self _ _,
            List.mem_reverse.mpr h⟩
      · have heq : splitSentGo (x :: rest) acc false
            = splitSentGo rest (x :: acc) false := by
          simp only [splitSentGo]
          rw [if_neg (by simp), if_neg hb]
        rw [heq]
        apply ih (x :: acc) false (by simp)
        rcases hmem with h | h
        · rcases List.mem_cons.mp h with rfl | h
          · exact Or.inr (by simp)
          · exact Or.inl h
        · exact Or.inr (List.mem_cons_of_mem _ h)

theorem mem_splitSentences (c : Char) (text : Str) (hc : ¬c.isWhitespace)
    (h : c ∈ text) : ∃ s ∈ splitSentences text, c ∈ s :=
  mem_splitSentGo c hc text [] false (by simp) (Or.inl h)

theorem mem_joinWith (sep : Char) (c : Char) :
    ∀ (l : List Str) (x : Str), x ∈ l → c ∈ x → c ∈ joinWith sep l := by
  intro l
  induction l with
  | nil => intro x hx; cases hx
  | cons y ys ih =>
    intro x hx hcx
    rcases List.mem_cons.mp hx with rfl | hx
    · cases ys with
      | nil => simpa [joinWith] using hcx
      | cons z zs => simp [joinWith, List.mem_append, hcx]
    · cases ys with
      | nil => cases hx
      | cons z zs =>
        have := ih x hx hcx
        simp only [joinWith, List.mem_append, List.mem_cons]
        right; right
        simpa [joinWith] using this

theorem mem_of_mem_joinWith (sep : Char) (c : Char) :
    ∀ l : List Str, c ∈ joinWith sep l → c = sep ∨ ∃ x ∈ l, c ∈ x := by
  intro l
  induction l with
  | nil => intro h; cases h
  | cons y ys ih =>
    intro h
    cases ys with
    | nil =>
      right; exact ⟨y, by simp, by simpa [joinWith] using h⟩
    | cons z zs =>
      simp only [joinWith] at h
      rcases List.mem_append.mp h with h | h
      · right; exact ⟨y, by simp, h⟩
      · rcases List.mem_cons.mp h with rfl | h
        · exact Or.inl rfl
        · rcases ih h with h | ⟨x, hx, hcx⟩
          · exact Or.inl h
          · exact Or.inr ⟨x, List.mem_cons_of_mem _ hx, hcx⟩

theorem spChar_isWhitespace : spChar.isWhitespace := by decide

/-! ## Lemmas about the segmenter -/

/-- State invariant: something with visible content has been accumulated —
either a chunk was already emitted, or the current accumulation joins to a
string containing a non-whitespace character. -/
def ChunkQ (st : ChunkState) : Prop :=
  st.chunks ≠ [] ∨ ∃ c ∈ joinSp st.current, ¬c.isWhitespace

theorem chunkStep_spec (cs ov : Nat) (st : ChunkState) (s : Str) :
    chunkStep cs ov st s = ⟨st.chunks, st.current ++ [s], st.count + wordCount s⟩
  ∨ ((chunkStep cs ov st s).chunks
       = (if strip (joinSp st.current) ≠ [] then st.chunks ++ [joinSp st.current]
          else st.chunks)
     ∧ ∃ pre, (chunkStep cs ov st s).current = pre ++ [s]) := by
  by_cases h1 : cs < st.count + wordCount s ∧ st.current ≠ []
  · right
    by_cases h2 : (if 1 < st.current.length
        then joinSp (lastSlice (ov / 10) st.current) else []) ≠ []
    · constructor
      · simp only [chunkStep, if_pos h1, if_pos h2]
      · refine ⟨[(if 1 < st.current.length
          then joinSp (lastSlice (ov / 10) st.current) else [])], ?_⟩
        simp only [chunkStep, if_pos h1, if_pos h2]
    · constructor
      · simp only [chunkStep, if_pos h1, if_neg h2]
      · exact ⟨[], by simp only [chunkStep, if_pos h1, if_neg h2]; rfl⟩
  · left
    simp only [chunkStep, if_neg h1]

theorem chunkStep_preserves_Q (cs ov : Nat) (st : ChunkState) (s : Str)
    (h : ChunkQ st) : ChunkQ (chunkStep cs ov st s) := by
  rcases chunkStep_spec cs ov st s with hsp | ⟨hchunks, pre, hcur⟩
  · rcases h with h | ⟨c, hc, hcw⟩
    · left; rw [hsp]; exact h
    · right
      refine ⟨c, ?_, hcw⟩
      rw [hsp]
      rcases mem_of_mem_joinWith spChar c st.current hc with rfl | ⟨x, hx, hcx⟩
      · exact absurd spChar_isWhitespace hcw
      · exact mem_joinWith spChar c (st.current ++ [s]) x (by simp [hx]) hcx
  · left
    rw [hchunks]
    rcases h with h | ⟨c, hc, hcw⟩
    · split
      · intro hx
        exact h (by simpa using List.append_eq_nil.mp hx |>.1)
      · exact h
    · have hct : strip (joinSp st.current) ≠ [] := by
        rw [Ne, strip_eq_nil]
        intro hall
        exact hcw (hall c hc)
      rw [if_pos hct]
      simp

theorem chunkStep_absorbs (cs ov : Nat) (st : ChunkState) (s : Str) (c : Char)
    (hc : c ∈ s) (hcw : ¬c.isWhitespace) : ChunkQ (chunkStep cs ov st s) := by
  rcases chunkStep_spec cs ov st s with hsp | ⟨hchunks, pre, hcur⟩
  · right
    rw [hsp]
    exact ⟨c, mem_joinWith spChar c _ s (by simp) hc, hcw⟩
  · right
    rw [hcur]
    exact ⟨c, mem_joinWith spChar c _ s (by simp) hc, hcw⟩

theorem foldl_chunkStep_Q (cs ov : Nat) :
    ∀ (ss : List Str) (st : ChunkState),
    (ChunkQ st ∨ ∃ s ∈ ss, ∃ c ∈ s, ¬c.isWhitespace) →
    ChunkQ (ss.foldl (chunkStep cs ov) st) := by
  intro ss
  induction ss with
  | nil =>
    intro st h
    rcases h with h | ⟨s, hs, _⟩
    · exact h
    · cases hs
  | cons s ss ih =>
    intro st h
    simp only [List.foldl_cons]
    rcases h with h | ⟨t, ht, c, hct, hcw⟩
    · exact ih _ (Or.inl (chunkStep_preserves_Q cs ov st s h))
    · rcases List.mem_cons.mp ht with rfl | ht
      · exact ih _ (Or.inl (chunkStep_absorbs cs ov st t c hct hcw))
      · exact ih _ (Or.inr ⟨t, ht, c, hct, hcw⟩)

/-- Every chunk ever appended passed the `chunk_text.strip()` guard. -/
theorem chunkStep_chunks_nonblank (cs ov : Nat) (st : ChunkState) (s : Str)
    (h : ∀ x ∈ st.chunks, strip x ≠ []) :
    ∀ x ∈ (chunkStep cs ov st s).chunks, strip x ≠ [] := by
  rcases chunkStep_spec cs ov st s with hsp | ⟨hchunks, pre, hcur⟩
  · rw [hsp]; exact h
  · rw [hchunks]
    split
    case isTrue hne =>
      intro x hx
      rcases List.mem_append.mp hx with hx | hx
      · exact h x hx
      · rcases List.mem_singleton.mp hx with rfl
        exact hne
    case isFalse _ => exact h

theorem foldl_chunkStep_nonblank (cs ov : Nat) :
    ∀ (ss : List Str) (st : ChunkState),
    (∀ x ∈ st.chunks, strip x ≠ []) →
    ∀ x ∈ (ss.foldl (chunkStep cs ov) st).chunks, strip x ≠ [] := by
  intro ss
  induction ss with
  | nil => intro st h; exact h
  | cons s ss ih =>
    intro st h
    exact ih _ (chunkStep_chunks_nonblank cs ov st s h)

/-- Claim C7: for every input and parameter choice of the text segmenter,
(i) empty or whitespace-only input yields the empty list; (ii) an input
that is a single sentence with more than `chunk_size` words is emitted as
its own chunk, not split mid-sentence; (iii) non-blank input always
produces at least one chunk; (iv) whenever the final accumulation has
visible content it is flushed as the last chunk; (v) no emitted chunk is
an empty (or blank) string. -/
theorem c7_segmenter_edge_cases (chunkSize overlap : Nat) (text : Str) :
    (strip text = [] → chunk_text text chunkSize overlap = [])
  ∧ (splitSentences text = [text] → chunkSize < wordCount text →
       strip text ≠ [] → chunk_text text chunkSize overlap = [text])
  ∧ (strip text ≠ [] → chunk_text text chunkSize overlap ≠ [])
  ∧ (strip text ≠ [] →
       (((splitSentences text).foldl (chunkStep chunkSize overlap)
           ⟨[], [], 0⟩).current ≠ [] ∧
        strip (joinSp (((splitSentences text).foldl (chunkStep chunkSize overlap)
           ⟨[], [], 0⟩).current)) ≠ []) →
       chunk_text text chunkSize overlap
         = ((splitSentences text).foldl (chunkStep chunkSize overlap)
             ⟨[], [], 0⟩).chunks
           ++ [joinSp (((splitSentences text).foldl (chunkStep chunkSize overlap)
             ⟨[], [], 0⟩).current)])
  ∧ (∀ ch ∈ chunk_text text chunkSize overlap, strip ch ≠ []) := by
  refine ⟨?_, ?_, ?_, ?_, ?_⟩
  · intro h
    simp [chunk_text, h]
  · intro hsent hsize hstrip
    simp only [chunk_text]
    rw [if_neg hstrip, hsent]
    simp only [List.foldl_cons, List.foldl_nil]
    have hstep : chunkStep chunkSize overlap ⟨[], [], 0⟩ text
        = ⟨[], [text], wordCount text⟩ := by
      simp [chunkStep]
    rw [hstep]
    simp [joinSp, joinWith, hstrip]
  · intro hstrip
    have hink : ∃ c ∈ text, ¬c.isWhitespace := by
      by_contra hall
      push_neg at hall
      exact hstrip ((strip_eq_nil text).mpr (by simpa using hall))
    obtain ⟨c, hct, hcw⟩ := hink
    obtain ⟨s, hs, hcs⟩ := mem_splitSentences c text hcw hct
    have hQ : ChunkQ ((splitSentences text).foldl
        (chunkStep chunkSize overlap) ⟨[], [], 0⟩) :=
      foldl_chunkStep_Q chunkSize overlap _ _ (Or.inr ⟨s, hs, c, hcs, hcw⟩)
    simp only [chunk_text]
    rw [if_neg hstrip]
    rcases hQ with hQ | ⟨c', hc', hcw'⟩
    · split
      · simp only [ne_eq, List.append_eq_nil]
        intro h
        exact hQ h.1
      · exact hQ
    · have hcur : ((splitSentences text).foldl
          (chunkStep chunkSize overlap) ⟨[], [], 0⟩).current ≠ [] := by
        intro h
        rw [h] at hc'
        simp [joinSp, joinWith] at hc'
      have hjn : strip (joinSp (((splitSentences text).foldl
          (chunkStep chunkSize overlap) ⟨[], [], 0⟩).current)) ≠ [] := by
        rw [Ne, strip_eq_nil]
        intro hall
        exact hcw' (hall c' hc')
      rw [if_pos ⟨hcur, hjn⟩]
      simp
  · intro hstrip hfin
    simp only [chunk_text]
    rw [if_neg hstrip, if_pos hfin]
  · intro ch hch
    by_cases hstrip : strip text = []
    · simp [chunk_text, hstrip] at hch
    · simp only [chunk_text] at hch
      rw [if_neg hstrip] at hch
      have hchunks : ∀ x ∈ ((splitSentences text).foldl
          (chunkStep chunkSize overlap) ⟨[], [], 0⟩).chunks, strip x ≠ [] :=
        foldl_chunkStep_nonblank chunkSize overlap _ _ (by intro x hx; cases hx)
      split at hch
      next hcond =>
        rcases List.mem_append.mp hch with h | h
        · exact hchunks ch h
        · rcases List.mem_singleton.mp h with rfl
          exact hcond.2
      next _ => exact hchunks ch hch

/-- Witness for C7 at concrete inputs: a whitespace-only text, a single
long sentence with `chunk_size = 3`, and a short non-blank text. -/
theorem c7_segmenter_edge_cases_witness :
    chunk_text ("   ".toList) 500 100 = []
  ∧ chunk_text ("one two three four five".toList) 3 100
      = [("one two three four five".toList)]
  ∧ chunk_text ("Operation completed in Germany.".toList) 500 100 ≠ [] :=
  ⟨(c7_segmenter_edge_cases 500 100 _).1 (by decide),
   (c7_segmenter_edge_cases 3 100 _).2.1 (by decide) (by decide) (by decide),
   (c7_segmenter_edge_cases 500 100 _).2.2.1 (by decide)⟩

/-! ## Lemmas about the vector index wrapper -/

/-- Every hit returned by `vsSearch` carries the metadata of some stored
entry that passed the `where` clause. -/
theorem vsSearch_mem (dist : Vec → Vec → ℚ) (vs : VS) (qe : Vec) (n : Nat)
    (fs : Filters) (r : FR) (hr : r ∈ vsSearch dist vs qe n fs none) :
    ∃ e ∈ vs, r.metadata = e.meta ∧ matchesFilters fs e.meta = true := by
  simp only [vsSearch, List.mem_map] at hr
  obtain ⟨ed, hed, rfl⟩ := hr
  have h1 : ed ∈ (((vs.filter (fun e => matchesFilters fs e.meta)).map
      (fun e => (e, dist qe e.embedding))).insertionSort (fun a b => a.2 ≤ b.2)) :=
    List.mem_of_mem_take (by simpa [collectionQuery] using hed)
  rw [List.mem_insertionSort] at h1
  obtain ⟨e, he, rfl⟩ := List.mem_map.mp h1
  have := List.mem_filter.mp he
  exact ⟨e, this.1, rfl, this.2⟩

/-- Claim C10 (implicit): the index search wrapper is total at its
interface.  If the underlying `collection.query` raises, `search` returns
the empty list — exactly what a successful query over an empty collection
returns, so a backend failure is indistinguishable from zero matches. -/
theorem c10_vsSearch_swallows_backend_errors (dist : Vec → Vec → ℚ) (vs : VS)
    (qe : Vec) (n : Nat) (fs : Filters) (e : Str) :
    vsSearch dist vs qe n fs (some e) = []
  ∧ vsSearch dist ([] : VS) qe n fs none = [] := by
  constructor
  · rfl
  · simp [vsSearch, collectionQuery]

/-- Claim C3 (amended): `add_chunks` rejects — with no write — empty or
count-mismatched chunks/embeddings (first conjunct, including the
"subsequent search finds zero chunks" consequence), and also fails with
no write when the metadata list is longer than the chunks (third
conjunct, via the backend length validation); but a *shorter* metadata
list is padded with empty dictionaries and the write proceeds (second
conjunct), so the three-way equal-length precondition of the claim is not
what the code enforces. -/
theorem c3_add_count_mismatch (raiseE : Option Str) (pid : Str)
    (chunks : List Str) (title : Str) (embs : List Vec)
    (md : Option (List Meta)) (vs : VS) (dist : Vec → Vec → ℚ) :
    (chunks.length ≠ embs.length ∨ chunks = [] ∨ embs = [] →
       (add_chunks raiseE pid chunks title embs md vs).1.success = false
       ∧ (add_chunks raiseE pid chunks title embs md vs).2 = vs
       ∧ ((∀ e ∈ vs, e.meta.page_id ≠ pid) → ∀ qe n fs,
            ∀ r ∈ vsSearch dist (add_chunks raiseE pid chunks title embs md vs).2
                qe n fs none,
              r.metadata.page_id ≠ pid))
  ∧ (chunks ≠ [] → chunks.length = embs.length →
       (md.getD []).length ≤ chunks.length →
       (add_chunks none pid chunks title embs md vs).1.success = true)
  ∧ (chunks ≠ [] → chunks.length = embs.length →
       chunks.length < (md.getD []).length →
       (add_chunks raiseE pid chunks title embs md vs).1.success = false
       ∧ (add_chunks raiseE pid chunks title embs md vs).2 = vs) := by
  have hids : (addIds pid chunks.length).length = chunks.length := by
    simp [addIds]
  have hstamp : ∀ md1 : List Meta, (stampMeta pid title md1).length = md1.length := by
    intro md1
    simp [stampMeta]
  refine ⟨?_, ?_, ?_⟩
  · intro h
    have hfail : (add_chunks raiseE pid chunks title embs md vs).1.success = false
        ∧ (add_chunks raiseE pid chunks title embs md vs).2 = vs := by
      by_cases h0 : chunks = [] ∨ embs = []
      · unfold add_chunks
        rw [if_pos h0]
        exact ⟨rfl, rfl⟩
      · have hne : chunks.length ≠ embs.length := by
          rcases h with h | h | h
          · exact h
          · exact absurd (Or.inl h) h0
          · exact absurd (Or.inr h) h0
        unfold add_chunks
        rw [if_neg h0, if_pos hne]
        exact ⟨rfl, rfl⟩
    refine ⟨hfail.1, hfail.2, ?_⟩
    intro hfresh qe n fs r hr
    rw [hfail.2] at hr
    obtain ⟨e, he, hmeta, _⟩ := vsSearch_mem dist vs qe n fs r hr
    rw [hmeta]
    exact hfresh e he
  · intro hne hlen hmd
    have h0 : ¬(chunks = [] ∨ embs = []) := by
      rintro (h | h)
      · exact hne h
      · rw [h] at hlen
        exact hne (List.length_eq_zero.mp hlen)
    have hpadlen : (padMeta chunks.length (md.getD [])).length = chunks.length := by
      simp only [padMeta, List.length_append, List.length_replicate]
      omega
    unfold add_chunks
    rw [if_neg h0, if_neg (by simpa using hlen)]
    simp only [collectionAdd]
    rw [if_pos ⟨by rw [hids, hlen], by rw [hids, hstamp, hpadlen], by rw [hids]⟩]
  · intro hne hlen hmd
    have h0 : ¬(chunks = [] ∨ embs = []) := by
      rintro (h | h)
      · exact hne h
      · rw [h] at hlen
        exact hne (List.length_eq_zero.mp hlen)
    have hpadlen : (padMeta chunks.length (md.getD [])).length = (md.getD []).length := by
      simp only [padMeta, List.length_append, List.length_replicate]
      omega
    unfold add_chunks
    rw [if_neg h0, if_neg (by simpa using hlen)]
    simp only [collectionAdd]
    cases raiseE with
    | some e => exact ⟨rfl, rfl⟩
    | none =>
      rw [if_neg ?hcond]
      case hcond =>
        rintro ⟨-, h2, -⟩
        rw [hids, hstamp, hpadlen] at h2
        omega
      exact ⟨rfl, rfl⟩

/-- Counterexample for C3 as stated: one chunk, one embedding, an *empty*
metadata list — the three lengths are not all equal, yet `add_chunks`
succeeds and writes the chunk. -/
theorem c3_add_count_mismatch_cex :
    ([("a".toList)].length ≠ ([] : List Meta).length)
  ∧ (add_chunks none ("p9".toList) [("a".toList)] ("T".toList) [[]]
      (some []) []).1.success = true
  ∧ (add_chunks none ("p9".toList) [("a".toList)] ("T".toList) [[]]
      (some []) []).2 ≠ [] := by
  exact ⟨by decide, by decide, by decide⟩

/-- Witness for C3 (amended), at a concrete mismatched call. -/
theorem c3_add_count_mismatch_witness :
    (add_chunks none ("p9".toList) [("a".toList)] ("T".toList) ([] : List Vec)
      none []).1.success = false
  ∧ (add_chunks none ("p9".toList) [("a".toList)] ("T".toList) ([] : List Vec)
      none []).2 = [] :=
  ⟨((c3_add_count_mismatch none _ _ _ _ none [] dist0).1
      (Or.inr (Or.inr rfl))).1,
   ((c3_add_count_mismatch none _ _ _ _ none [] dist0).1
      (Or.inr (Or.inr rfl))).2.1⟩

/-! ## Lemmas about the retrieval service loop -/

theorem findPage_id (db : DB) (pid : Str) (p : Page)
    (h : findPage db pid = some p) : p.id = pid := by
  have := List.find?_some h
  simpa using this

theorem findPage_mem (db : DB) (pid : Str) (p : Page)
    (h : findPage db pid = some p) : p ∈ db :=
  List.mem_of_find?_eq_some h

/-- Every result emitted by the loop either was already accumulated or
stems from a candidate chunk of the same page id and similarity score. -/
theorem searchLoop_mem (env : Env) (q : SQ) (limit : Nat) :
    ∀ (cands : List FR) (seen : List Str) (acc : List SearchResult)
      (r : SearchResult), r ∈ searchLoop env q limit cands seen acc →
      r ∈ acc ∨ ∃ c ∈ cands, r.document_id = c.metadata.page_id
        ∧ r.similarity_score = c.similarity_score := by
  intro cands
  induction cands with
  | nil =>
    intro seen acc r hr
    exact Or.inl hr
  | cons c rest ih =>
    intro seen acc r hr
    simp only [searchLoop] at hr
    by_cases h1 : c.metadata.page_id ∈ seen
    · rw [if_pos h1] at hr
      rcases ih seen acc r hr with h | ⟨c', hc', h⟩
      · exact Or.inl h
      · exact Or.inr ⟨c', List.mem_cons_of_mem _ hc', h⟩
    · rw [if_neg h1] at hr
      by_cases h2 : countrySkip q c.metadata = true
      · rw [if_pos h2] at hr
        rcases ih seen acc r hr with h | ⟨c', hc', h⟩
        · exact Or.inl h
        · exact Or.inr ⟨c', List.mem_cons_of_mem _ hc', h⟩
      · rw [if_neg h2] at hr
        cases hfind : findPage env.db c.metadata.page_id with
        | none =>
          simp only [hfind] at hr
          rcases ih seen acc r hr with h | ⟨c', hc', h⟩
          · exact Or.inl h
          · exact Or.inr ⟨c', List.mem_cons_of_mem _ hc', h⟩
        | some page =>
          simp only [hfind] at hr
          by_cases h3 : visSkip q page = true
          · rw [if_pos h3] at hr
            rcases ih seen acc r hr with h | ⟨c', hc', h⟩
            · exact Or.inl h
            · exact Or.inr ⟨c', List.mem_cons_of_mem _ hc', h⟩
          · rw [if_neg h3] at hr
            by_cases h4 : tagSkip q page = true
            · rw [if_pos h4] at hr
              rcases ih seen acc r hr with h | ⟨c', hc', h⟩
              · exact Or.inl h
              · exact Or.inr ⟨c', List.mem_cons_of_mem _ hc', h⟩
            · rw [if_neg h4] at hr
              have hmk : ∀ x, x ∈ acc ++ [mkResult env q page c] →
                  x ∈ acc ∨ ∃ c' ∈ c :: rest, x.document_id = c'.metadata.page_id
                    ∧ x.similarity_score = c'.similarity_score := by
                intro x hx
                rcases List.mem_append.mp hx with hx | hx
                · exact Or.inl hx
                · rcases List.mem_singleton.mp hx with rfl
                  refine Or.inr ⟨c, List.mem_cons_self _ _, ?_, rfl⟩
                  simp only [mkResult]
                  exact findPage_id env.db c.metadata.page_id page hfind
              by_cases h5 : limit ≤ (acc ++ [mkResult env q page c]).length
              · rw [if_pos h5] at hr
                exact hmk r hr
              · rw [if_neg h5] at hr
                rcases ih _ _ r hr with h | ⟨c', hc', h⟩
                · exact hmk r h
                · exact Or.inr ⟨c', List.mem_cons_of_mem _ hc', h⟩

/-- Page-level (chunk-independent) reasons a candidate page is skipped. -/
def docSkips (env : Env) (q : SQ) (pid : Str) : Prop :=
  match findPage env.db pid with
  | none => True
  | some page => visSkip q page = true ∨ tagSkip q page = true

/-- Case analysis for one step of the loop: either the head candidate is
skipped (and why), or its page is emitted. -/
theorem searchLoop_cons_cases (env : Env) (q : SQ) (limit : Nat) (c : FR)
    (rest : List FR) (seen : List Str) (acc : List SearchResult) :
    (searchLoop env q limit (c :: rest) seen acc
        = searchLoop env q limit rest seen acc
      ∧ (c.metadata.page_id ∈ seen ∨ countrySkip q c.metadata = true
          ∨ docSkips env q c.metadata.page_id))
  ∨ (∃ page, findPage env.db c.metadata.page_id = some page
      ∧ c.metadata.page_id ∉ seen
      ∧ countrySkip q c.metadata = false
      ∧ visSkip q page = false ∧ tagSkip q page = false
      ∧ searchLoop env q limit (c :: rest) seen acc
          = (if limit ≤ (acc ++ [mkResult env q page c]).length
             then acc ++ [mkResult env q page c]
             else searchLoop env q limit rest (seen ++ [c.metadata.page_id])
                    (acc ++ [mkResult env q page c]))) := by
  by_cases h1 : c.metadata.page_id ∈ seen
  · exact Or.inl ⟨by simp only [searchLoop]; rw [if_pos h1], Or.inl h1⟩
  · by_cases h2 : countrySkip q c.metadata = true
    · exact Or.inl ⟨by simp only [searchLoop]; rw [if_neg h1, if_pos h2],
        Or.inr (Or.inl h2)⟩
    · cases hfind : findPage env.db c.metadata.page_id with
      | none =>
        refine Or.inl ⟨?_, Or.inr (Or.inr ?_)⟩
        · simp only [searchLoop]
          rw [if_neg h1, if_neg h2, hfind]
        · simp only [docSkips, hfind]
      | some page =>
        by_cases h3 : visSkip q page = true
        · refine Or.inl ⟨?_, Or.inr (Or.inr ?_)⟩
          · simp only [searchLoop]
            rw [if_neg h1, if_neg h2, hfind]
            simp only [if_pos h3]
          · simp only [docSkips, hfind]
            exact Or.inl h3
        · by_cases h4 : tagSkip q page = true
          · refine Or.inl ⟨?_, Or.inr (Or.inr ?_)⟩
            · simp only [searchLoop]
              rw [if_neg h1, if_neg h2, hfind]
              simp only [if_neg h3, if_pos h4]
            · simp only [docSkips, hfind]
              exact Or.inr h4
          · refine Or.inr ⟨page, rfl, h1, by simpa using h2, by simpa using h3,
              by simpa using h4, ?_⟩
            simp only [searchLoop]
            rw [if_neg h1, if_neg h2, hfind]
            simp only [if_neg h3, if_neg h4]

/-- The loop never returns more than `limit` results (for positive
`limit`). -/
theorem searchLoop_length (env : Env) (q : SQ) (limit : Nat) :
    ∀ (cands : List FR) (seen : List Str) (acc : List SearchResult),
      acc.length < limit →
      (searchLoop env q limit cands seen acc).length ≤ limit := by
  intro cands
  induction cands with
  | nil =>
    intro seen acc h
    simpa [searchLoop] using h.le
  | cons c rest ih =>
    intro seen acc h
    rcases searchLoop_cons_cases env q limit c rest seen acc with
      ⟨heq, _⟩ | ⟨page, _, _, _, _, _, heq⟩
    · rw [heq]; exact ih seen acc h
    · rw [heq]
      by_cases h5 : limit ≤ (acc ++ [mkResult env q page c]).length
      · rw [if_pos h5]
        simpa using h
      · rw [if_neg h5]
        exact ih _ _ (by omega)

/-- The loop never emits the same document twice. -/
theorem searchLoop_nodup (env : Env) (q : SQ) (limit : Nat) :
    ∀ (cands : List FR) (seen : List Str) (acc : List SearchResult),
      (acc.map (fun r => r.document_id)).Nodup →
      (∀ r ∈ acc, r.document_id ∈ seen) →
      ((searchLoop env q limit cands seen acc).map
        (fun r => r.document_id)).Nodup := by
  intro cands
  induction cands with
  | nil =>
    intro seen acc h _
    simpa [searchLoop] using h
  | cons c rest ih =>
    intro seen acc hnd hsub
    rcases searchLoop_cons_cases env q limit c rest seen acc with
      ⟨heq, _⟩ | ⟨page, hfind, hnotseen, _, _, _, heq⟩
    · rw [heq]; exact ih seen acc hnd hsub
    · rw [heq]
      have hid : (mkResult env q page c).document_id = c.metadata.page_id := by
        simp only [mkResult]
        exact findPage_id env.db c.metadata.page_id page hfind
      have hnd2 : ((acc ++ [mkResult env q page c]).map
          (fun r => r.document_id)).Nodup := by
        rw [List.map_append]
        rw [List.nodup_append]
        refine ⟨hnd, by simp, ?_⟩
        intro a ha hb
        rcases List.mem_map.mp ha with ⟨ra, hra, rfl⟩
        simp only [List.map_cons, List.map_nil, List.mem_singleton] at hb
        have hmem : ra.document_id ∈ seen := hsub ra hra
        rw [hb, hid] at hmem
        exact hnotseen hmem
      by_cases h5 : limit ≤ (acc ++ [mkResult env q page c]).length
      · rw [if_pos h5]
        exact hnd2
      · rw [if_neg h5]
        refine ih _ _ hnd2 ?_
        intro r hr
        rcases List.mem_append.mp hr with hr | hr
        · exact List.mem_append_left _ (hsub r hr)
        · rcases List.mem_singleton.mp hr with rfl
          rw [hid]
          simp

/-- Descending order on results. -/
def scoreDesc (a b : SearchResult) : Prop :=
  b.similarity_score ≤ a.similarity_score

/-- Descending order on formatted index hits. -/
def hitDesc (a b : FR) : Prop :=
  b.similarity_score ≤ a.similarity_score

theorem clamp01_mono {x y : ℚ} (h : x ≤ y) : clamp01 x ≤ clamp01 y :=
  max_le_max le_rfl (min_le_min le_rfl h)

theorem clamp01_nonneg (x : ℚ) : 0 ≤ clamp01 x := le_max_left 0 _

theorem clamp01_le_one (x : ℚ) : clamp01 x ≤ 1 :=
  max_le zero_le_one (min_le_left 1 x)

instance : IsTotal (VSEntry × ℚ) (fun a b => a.2 ≤ b.2) :=
  ⟨fun a b => le_total a.2 b.2⟩

instance : IsTrans (VSEntry × ℚ) (fun a b => a.2 ≤ b.2) :=
  ⟨fun _ _ _ hab hbc => le_trans hab hbc⟩

/-- The index returns hits ranked by (clamped) similarity descending. -/
theorem vsSearch_sorted (dist : Vec → Vec → ℚ) (vs : VS) (qe : Vec) (n : Nat)
    (fs : Filters) (raiseE : Option Str) :
    List.Pairwise hitDesc (vsSearch dist vs qe n fs raiseE) := by
  cases raiseE with
  | some e => simp [vsSearch]
  | none =>
    simp only [vsSearch]
    rw [List.pairwise_map]
    have hsorted : List.Pairwise (fun a b : VSEntry × ℚ => a.2 ≤ b.2)
        (collectionQuery dist vs qe n fs) := by
      simp only [collectionQuery]
      exact (List.sorted_insertionSort _ _).sublist (List.take_sublist _ _)
    exact hsorted.imp (fun h => clamp01_mono (by linarith))

/-- Every similarity score the index returns lies in [0,1]. -/
theorem vsSearch_score_mem (dist : Vec → Vec → ℚ) (vs : VS) (qe : Vec)
    (n : Nat) (fs : Filters) (raiseE : Option Str) (r : FR)
    (hr : r ∈ vsSearch dist vs qe n fs raiseE) :
    0 ≤ r.similarity_score ∧ r.similarity_score ≤ 1 := by
  cases raiseE with
  | some e => simp [vsSearch] at hr
  | none =>
    simp only [vsSearch, List.mem_map] at hr
    obtain ⟨ed, _, rfl⟩ := hr
    exact ⟨clamp01_nonneg _, clamp01_le_one _⟩

/-- The loop emits results ranked by similarity descending, provided the
candidate list is. -/
theorem searchLoop_sorted (env : Env) (q : SQ) (limit : Nat) :
    ∀ (cands : List FR) (seen : List Str) (acc : List SearchResult),
      List.Pairwise hitDesc cands →
      List.Pairwise scoreDesc acc →
      (∀ r ∈ acc, ∀ c ∈ cands, c.similarity_score ≤ r.similarity_score) →
      List.Pairwise scoreDesc (searchLoop env q limit cands seen acc) := by
  intro cands
  induction cands with
  | nil =>
    intro seen acc _ hacc _
    simpa [searchLoop] using hacc
  | cons c rest ih =>
    intro seen acc hcands hacc hbound
    have hcdesc : ∀ c' ∈ rest, c'.similarity_score ≤ c.similarity_score :=
      fun c' hc' => List.rel_of_pairwise_cons hcands hc'
    have hrest : List.Pairwise hitDesc rest := hcands.of_cons
    rcases searchLoop_cons_cases env q limit c rest seen acc with
      ⟨heq, _⟩ | ⟨page, hfind, _, _, _, _, heq⟩
    · rw [heq]
      exact ih seen acc hrest hacc
        (fun r hr c' hc' => hbound r hr c' (List.mem_cons_of_mem _ hc'))
    · rw [heq]
      have hsim : (mkResult env q page c).similarity_score = c.similarity_score := rfl
      have hacc2 : List.Pairwise scoreDesc (acc ++ [mkResult env q page c]) := by
        rw [List.pairwise_append]
        refine ⟨hacc, by simp [List.pairwise_singleton], ?_⟩
        intro a ha b hb
        rcases List.mem_singleton.mp hb with rfl
        show (mkResult env q page c).similarity_score ≤ a.similarity_score
        rw [hsim]
        exact hbound a ha c (List.mem_cons_self _ _)
      by_cases h5 : limit ≤ (acc ++ [mkResult env q page c]).length
      · rw [if_pos h5]
        exact hacc2
      · rw [if_neg h5]
        refine ih _ _ hrest hacc2 ?_
        intro r hr c' hc'
        rcases List.mem_append.mp hr with hr | hr
        · exact hbound r hr c' (List.mem_cons_of_mem _ hc')
        · rcases List.mem_singleton.mp hr with rfl
          rw [hsim]
          exact hcdesc c' hc'

/-- If no element of the front satisfies the predicate, `find?` continues
in the back. -/
theorem find?_append_of_none {α : Type} (p : α → Bool) (l₁ l₂ : List α)
    (h : ∀ x ∈ l₁, p x = false) :
    (l₁ ++ l₂).find? p = l₂.find? p := by
  induction l₁ with
  | nil => simp
  | cons a t ih =>
    simp only [List.cons_append, List.find?]
    rw [h a (by simp)]
    exact ih (fun x hx => h x (by simp [hx]))

/-- In a descending candidate list, the hit `find?` returns scores at
least as high as every other hit satisfying the predicate. -/
theorem find?_max_of_sorted (p : FR → Bool) :
    ∀ (l : List FR), List.Pairwise hitDesc l →
    ∀ c, l.find? p = some c →
    ∀ x ∈ l, p x = true → x.similarity_score ≤ c.similarity_score := by
  intro l
  induction l with
  | nil => intro _ c h; cases h
  | cons a t ih =>
    intro hpw c hfind x hx hpx
    by_cases hpa : p a = true
    · rw [List.find?_cons_of_pos _ hpa] at hfind
      rcases Option.some.inj hfind with rfl
      rcases List.mem_cons.mp hx with rfl | hx
      · exact le_refl _
      · exact List.rel_of_pairwise_cons hpw hx
    · rw [List.find?_cons_of_neg _ (by simpa using hpa)] at hfind
      rcases List.mem_cons.mp hx with rfl | hx
      · exact absurd hpx hpa
      · exact ih hpw.of_cons c hfind x hx hpx

/-- Core first-seen invariant: every emitted result's score is the score
of the *first* candidate chunk of its page that passes the country
filter.  `P` is the already-processed prefix of the candidate list. -/
theorem searchLoop_firstMatch (env : Env) (q : SQ) (limit : Nat) :
    ∀ (cands P : List FR) (seen : List Str) (acc : List SearchResult),
      (∀ pid, pid ∈ seen ↔ ∃ r ∈ acc, r.document_id = pid) →
      (∀ x ∈ P, x.metadata.page_id ∈ seen ∨ countrySkip q x.metadata = true
         ∨ docSkips env q x.metadata.page_id) →
      (∀ r ∈ acc, ∃ c, firstMatch q (P ++ cands) r.document_id = some c
         ∧ r.similarity_score = c.similarity_score) →
      ∀ r ∈ searchLoop env q limit cands seen acc,
        ∃ c, firstMatch q (P ++ cands) r.document_id = some c
          ∧ r.similarity_score = c.similarity_score := by
  intro cands
  induction cands with
  | nil =>
    intro P seen acc _ _ hacc r hr
    exact hacc r (by simpa [searchLoop] using hr)
  | cons c rest ih =>
    intro P seen acc hseen hP hacc r hr
    rw [List.append_cons] at hacc ⊢
    rcases searchLoop_cons_cases env q limit c rest seen acc with
      ⟨heq, hwhy⟩ | ⟨page, hfind, hnotseen, hcountry, hvis, htag, heq⟩
    · rw [heq] at hr
      refine ih (P ++ [c]) seen acc hseen ?_ hacc r hr
      intro x hx
      rcases List.mem_append.mp hx with hx | hx
      · exact hP x hx
      · rcases List.mem_singleton.mp hx with rfl
        exact hwhy
    · rw [heq] at hr
      have hid : (mkResult env q page c).document_id = c.metadata.page_id := by
        simp only [mkResult]
        exact findPage_id env.db c.metadata.page_id page hfind
      have hsim : (mkResult env q page c).similarity_score
          = c.similarity_score := rfl
      have hPnone : ∀ x ∈ P, (fun y : FR =>
          decide (y.metadata.page_id = c.metadata.page_id)
            && !countrySkip q y.metadata) x = false := by
        intro x hx
        rcases hP x hx with hws | hws | hws
        · by_cases hxy : x.metadata.page_id = c.metadata.page_id
          · exact absurd (hxy ▸ hws) hnotseen
          · simp [hxy]
        · simp [hws]
        · by_cases hxy : x.metadata.page_id = c.metadata.page_id
          · rw [hxy] at hws
            simp only [docSkips, hfind] at hws
            rcases hws with hws | hws
            · rw [hws] at hvis; cases hvis
            · rw [hws] at htag; cases htag
          · simp [hxy]
      have hfm : firstMatch q (P ++ c :: rest) c.metadata.page_id = some c := by
        simp only [firstMatch]
        rw [find?_append_of_none _ P _ hPnone]
        rw [List.find?_cons_of_pos]
        simp [hcountry]
      have hnew : ∀ x, x ∈ acc ++ [mkResult env q page c] →
          ∃ cc, firstMatch q ((P ++ [c]) ++ rest) x.document_id = some cc
            ∧ x.similarity_score = cc.similarity_score := by
        intro x hx
        rcases List.mem_append.mp hx with hx | hx
        · exact hacc x hx
        · rcases List.mem_singleton.mp hx with rfl
          refine ⟨c, ?_, hsim⟩
          rw [hid, ← List.append_cons]
          exact hfm
      by_cases h5 : limit ≤ (acc ++ [mkResult env q page c]).length
      · rw [if_pos h5] at hr
        exact hnew r hr
      · rw [if_neg h5] at hr
        refine ih (P ++ [c]) (seen ++ [c.metadata.page_id])
          (acc ++ [mkResult env q page c]) ?_ ?_ hnew r hr
        · intro pid
          constructor
          · intro hp
            rcases List.mem_append.mp hp with hp | hp
            · obtain ⟨ra, hra, hraid⟩ := (hseen pid).mp hp
              exact ⟨ra, List.mem_append_left _ hra, hraid⟩
            · rcases List.mem_singleton.mp hp with rfl
              exact ⟨mkResult env q page c, List.mem_append_right _ (by simp), hid⟩
          · rintro ⟨ra, hra, hraid⟩
            rcases List.mem_append.mp hra with hra | hra
            · exact List.mem_append_left _ ((hseen pid).mpr ⟨ra, hra, hraid⟩)
            · rcases List.mem_singleton.mp hra with rfl
              rw [← hraid, hid]
              simp
        · intro x hx
          rcases List.mem_append.mp hx with hx | hx
          · rcases hP x hx with hws | hws | hws
            · exact Or.inl (List.mem_append_left _ hws)
            · exact Or.inr (Or.inl hws)
            · exact Or.inr (Or.inr hws)
          · rcases List.mem_singleton.mp hx with rfl
            exact Or.inl (List.mem_append_right _ (by simp))

/-- A concrete category-`agent` search query. -/
def sqA : SQ :=
  { query := "What operations happened in Germany".toList,
    category := some catAgent }

/-- `envA` with a failing embedding backend. -/
def envFail : Env := { envA with be := beFail }

/-- `envA` with an empty vector store. -/
def envEmpty : Env := { envA with vs := [] }

/-- Claim C1: category isolation.  If every chunk of document `pid` in
the store carries a category different from the one the caller's role
resolves to, then no chat response ever lists `pid` among its matched
documents — the index applies the category equality filter before
ranking, and results only ever arise from filtered chunks. -/
theorem c1_category_isolation (env : Env) (gen : Except Str Str)
    (req : ChatReq) (pid cat : Str)
    (hrole : roleCategory req.user_role = some cat)
    (hiso : ∀ e ∈ env.vs, e.meta.page_id = pid → e.meta.category ≠ cat) :
    ∀ r ∈ (chat_query env gen req).matched_documents, r.document_id ≠ pid := by
  intro r hr
  simp only [chat_query, hrole] at hr
  set sq : SQ := chatSQ req cat with hsq
  by_cases hm : kbSearch env sq req.limit = []
  · rw [if_pos hm] at hr
    simp at hr
  · rw [if_neg hm] at hr
    have hrm : r ∈ kbSearch env sq req.limit := by
      cases gen with
      | ok a => simpa using hr
      | error e => simpa using hr
    simp only [kbSearch, kbSearchCore] at hrm
    cases hembed : embed_query env.be sq.query with
    | error e =>
      rw [hembed] at hrm
      simp at hrm
    | ok qe =>
      rw [hembed] at hrm
      simp only at hrm
      rcases searchLoop_mem env sq req.limit _ [] [] r hrm with h | ⟨c, hc, hcid, _⟩
      · cases h
      · intro hcontra
        obtain ⟨en, hen, hmeta, hfilt⟩ :=
          vsSearch_mem env.dist env.vs qe (req.limit * 3) (catFilters sq) c hc
        have hcat : en.meta.category = cat := by
          simp only [hsq, chatSQ, catFilters] at hfilt
          simpa [matchesFilters, getField] using hfilt
        have hpid : en.meta.page_id = pid := by
          rw [← hmeta, ← hcid, hcontra]
        exact hiso en hen hpid hcat

/-- Witness for C1: `pageP1` is indexed with category `agent`; a
`technician` chat never returns it. -/
theorem c1_category_isolation_witness :
    ("p1".toList) ∉ (chat_query envA (.ok ("fine".toList))
      chatReqTech).matched_documents.map (fun r => r.document_id) := by
  intro hmem
  rcases List.mem_map.mp hmem with ⟨r, hr, hid⟩
  exact c1_category_isolation envA (.ok ("fine".toList)) chatReqTech
    ("p1".toList) catTechnician (by decide) (by decide) r hr hid

/-- Claim C2 (amended): a failed query embedding (blank query or
embedding-backend error) aborts the whole search *without querying the
index*, but the typed failure is swallowed: the service returns the plain
empty result list rather than propagating an error value. -/
theorem c2_embed_failure_aborts (env : Env) (q : SQ) (limit : Nat) (e : Str)
    (h : embed_query env.be q.query = .error e) :
    kbSearchCore env q limit = ([], false) := by
  simp [kbSearchCore, h]

/-- Witness for C2 (amended) with a concrete failing backend. -/
theorem c2_embed_failure_aborts_witness :
    kbSearchCore envFail sqA 5 = ([], false) :=
  c2_embed_failure_aborts envFail sqA 5 ("connection refused".toList) (by decide)

/-- Counterexample for C2 as stated: the search whose query embedding
fails returns exactly the same value — the bare empty list — as a
successful search over an empty index, so the caller cannot distinguish
"the system could not search" from "no information exists"; no typed
failure reaches the caller. -/
theorem c2_embed_failure_aborts_cex :
    embed_query envFail.be sqA.query = .error ("connection refused".toList)
  ∧ kbSearch envFail sqA 5 = []
  ∧ kbSearch envEmpty sqA 5 = []
  ∧ kbSearch envFail sqA 5 = kbSearch envEmpty sqA 5 := by
  exact ⟨by decide, by decide, by decide, by decide⟩

/-- Claim C4: for a fixed index state, `search` returns (i) at most
`limit` results, (ii) pairwise-distinct documents, (iii) ranked by
similarity descending, and (iv) each emitted document scored and ranked
by its first-seen candidate chunk, which has the highest similarity among
that document's country-eligible candidate chunks. -/
theorem c4_search_ranking (env : Env) (q : SQ) (limit : Nat)
    (h : 1 ≤ limit) :
    (kbSearch env q limit).length ≤ limit
  ∧ ((kbSearch env q limit).map (fun r => r.document_id)).Nodup
  ∧ List.Pairwise scoreDesc (kbSearch env q limit)
  ∧ ∀ r ∈ kbSearch env q limit,
      ∃ c, firstMatch q (kbCandidates env q limit) r.document_id = some c
        ∧ r.similarity_score = c.similarity_score
        ∧ ∀ x ∈ kbCandidates env q limit,
            x.metadata.page_id = r.document_id →
            countrySkip q x.metadata = false →
            x.similarity_score ≤ c.similarity_score := by
  cases hembed : embed_query env.be q.query with
  | error e =>
    have hnil : kbSearch env q limit = [] := by
      simp [kbSearch, kbSearchCore, hembed]
    rw [hnil]
    simp
  | ok qe =>
    have hloop : kbSearch env q limit
        = searchLoop env q limit
            (vsSearch env.dist env.vs qe (limit * 3) (catFilters q) none) [] [] := by
      simp [kbSearch, kbSearchCore, hembed]
    have hcands : kbCandidates env q limit
        = vsSearch env.dist env.vs qe (limit * 3) (catFilters q) none := by
      simp [kbCandidates, hembed]
    rw [hloop, hcands]
    have hsorted := vsSearch_sorted env.dist env.vs qe (limit * 3) (catFilters q) none
    refine ⟨?_, ?_, ?_, ?_⟩
    · exact searchLoop_length env q limit _ [] [] (by simpa using h)
    · exact searchLoop_nodup env q limit _ [] [] (by simp) (by simp)
    · exact searchLoop_sorted env q limit _ [] [] hsorted (by simp) (by simp)
    · intro r hr
      obtain ⟨c, hfm, hsim⟩ := searchLoop_firstMatch env q limit _ [] [] []
        (by simp) (by simp) (by simp) r hr
      rw [List.nil_append] at hfm
      refine ⟨c, hfm, hsim, ?_⟩
      intro x hx hxid hxc
      exact find?_max_of_sorted _ _ hsorted c hfm x hx (by simp [hxid, hxc])

/-- Witness for C4 at the concrete one-document environment. -/
theorem c4_search_ranking_witness :
    (1 : Nat) ≤ 5
  ∧ ((kbSearch envA sqA 5).length ≤ 5
      ∧ ((kbSearch envA sqA 5).map (fun r => r.document_id)).Nodup
      ∧ List.Pairwise scoreDesc (kbSearch envA sqA 5)
      ∧ ∀ r ∈ kbSearch envA sqA 5,
          ∃ c, firstMatch sqA (kbCandidates envA sqA 5) r.document_id = some c
            ∧ r.similarity_score = c.similarity_score
            ∧ ∀ x ∈ kbCandidates envA sqA 5,
                x.metadata.page_id = r.document_id →
                countrySkip sqA x.metadata = false →
                x.similarity_score ≤ c.similarity_score) :=
  ⟨by decide, c4_search_ranking envA sqA 5 (by decide)⟩

/-! ## Confidence arithmetic -/

/-- Every score the retrieval service emits lies in [0,1] (the index
clamps them). -/
theorem kbSearch_score_mem (env : Env) (q : SQ) (limit : Nat) :
    ∀ r ∈ kbSearch env q limit,
      0 ≤ r.similarity_score ∧ r.similarity_score ≤ 1 := by
  intro r hr
  simp only [kbSearch, kbSearchCore] at hr
  cases hembed : embed_query env.be q.query with
  | error e =>
    rw [hembed] at hr
    simp at hr
  | ok qe =>
    rw [hembed] at hr
    simp only at hr
    rcases searchLoop_mem env q limit _ [] [] r hr with h | ⟨c, hc, _, hsim⟩
    · cases h
    · rw [hsim]
      exact vsSearch_score_mem env.dist env.vs qe (limit * 3) (catFilters q)
        none c hc

/-- The mean of a non-empty list of scores in [0,1] lies in [0,1], so the
`min(1.0, ...)` clamp is the identity on it. -/
theorem meanScore_bounds (rs : List SearchResult) (hne : rs ≠ [])
    (hb : ∀ r ∈ rs, 0 ≤ r.similarity_score ∧ r.similarity_score ≤ 1) :
    0 ≤ meanScore rs ∧ meanScore rs ≤ 1
      ∧ min 1 (meanScore rs) = meanScore rs := by
  have hlen : 0 < (rs.length : ℚ) := by
    have : 0 < rs.length := List.length_pos.mpr hne
    exact_mod_cast this
  have hsum0 : 0 ≤ (rs.map (fun r => r.similarity_score)).sum := by
    apply List.sum_nonneg
    intro x hx
    rcases List.mem_map.mp hx with ⟨r, hr, rfl⟩
    exact (hb r hr).1
  have hsum1 : (rs.map (fun r => r.similarity_score)).sum ≤ (rs.length : ℚ) := by
    have h := List.sum_le_card_nsmul (rs.map (fun r => r.similarity_score)) 1 ?_
    · simpa [nsmul_eq_mul] using h
    · intro x hx
      rcases List.mem_map.mp hx with ⟨r, hr, rfl⟩
      exact (hb r hr).2
  have h0 : 0 ≤ meanScore rs := div_nonneg hsum0 hlen.le
  have h1 : meanScore rs ≤ 1 := by
    rw [meanScore, div_le_one hlen]
    exact hsum1
  exact ⟨h0, h1, min_eq_right h1⟩

/-- Claim C6 (amended): for the role-aware chat, an empty grounding set
gives confidence 0.0 with an empty document list; a non-empty grounding
set gives confidence equal to the arithmetic mean of its similarity
scores when the generative call returns, but confidence 0.0 (with the
grounding set still attached) when it raises; confidence always lies in
[0,1].  The generic query entry point returns the empty-set response with
confidence 0.0, but *raises* (`AttributeError: chunk_snippet`) whenever
its grounding set is non-empty, so it never produces a non-empty
response at all. -/
theorem c6_confidence_mean (env : Env) (gen : Except Str Str) (req : ChatReq)
    (qreq : QueryReq) :
    ((chat_query env gen req).matched_documents = [] →
        (chat_query env gen req).confidence = 0)
  ∧ ((chat_query env gen req).matched_documents ≠ [] →
        (∀ a, gen = .ok a →
          (chat_query env gen req).confidence
            = meanScore (chat_query env gen req).matched_documents)
        ∧ (∀ e, gen = .error e → (chat_query env gen req).confidence = 0))
  ∧ (0 ≤ (chat_query env gen req).confidence
      ∧ (chat_query env gen req).confidence ≤ 1)
  ∧ (∀ resp, rag_query env gen qreq = .ok resp →
        resp.sources = [] ∧ resp.confidence = 0)
  ∧ (kbSearch env (ragSQ qreq) qreq.limit ≠ [] →
        ∃ e, rag_query env gen qreq = .error e) := by
  refine ⟨?_, ?_, ?_, ?_, ?_⟩
  · intro hempty
    simp only [chat_query] at hempty ⊢
    cases hrole : roleCategory req.user_role with
    | none => simp [hrole]
    | some cat =>
      simp only [hrole] at hempty ⊢
      by_cases hm : kbSearch env (chatSQ req cat) req.limit = []
      · rw [if_pos hm]
      · rw [if_neg hm] at hempty ⊢
        cases gen with
        | ok a => simp only at hempty; exact absurd hempty hm
        | error e => rfl
  · intro hne
    simp only [chat_query] at hne ⊢
    cases hrole : roleCategory req.user_role with
    | none => simp [hrole] at hne
    | some cat =>
      simp only [hrole] at hne ⊢
      by_cases hm : kbSearch env (chatSQ req cat) req.limit = []
      · rw [if_pos hm] at hne
        simp at hne
      · rw [if_neg hm] at hne ⊢
        constructor
        · rintro a rfl
          simp only
          obtain ⟨-, -, hmin⟩ := meanScore_bounds _ hm
            (kbSearch_score_mem env _ req.limit)
          exact hmin
        · rintro e rfl
          rfl
  · simp only [chat_query]
    cases hrole : roleCategory req.user_role with
    | none => norm_num
    | some cat =>
      simp only [hrole]
      by_cases hm : kbSearch env (chatSQ req cat) req.limit = []
      · rw [if_pos hm]
        norm_num
      · rw [if_neg hm]
        cases gen with
        | ok a =>
          simp only
          obtain ⟨h0, h1, hmin⟩ := meanScore_bounds _ hm
            (kbSearch_score_mem env _ req.limit)
          rw [hmin]
          exact ⟨h0, h1⟩
        | error e => norm_num
  · intro resp hresp
    simp only [rag_query] at hresp
    by_cases hm : kbSearch env (ragSQ qreq) qreq.limit = []
    · rw [if_pos hm] at hresp
      rcases Except.ok.inj hresp with rfl
      exact ⟨rfl, rfl⟩
    · rw [if_neg hm] at hresp
      cases hresp
  · intro hm
    simp only [rag_query]
    rw [if_neg hm]
    exact ⟨_, rfl⟩

/-- A concrete generic query whose retrieval is non-empty under `envA`. -/
def ragReqA : QueryReq :=
  { question := "What operations happened in Germany".toList }

/-- Witness for C6 (amended) at concrete environments: empty grounding
gives 0; non-empty grounding with a successful generation gives the mean;
bounds hold. -/
theorem c6_confidence_mean_witness :
    (chat_query envEmpty (.ok ("fine".toList)) chatReqAgent).confidence = 0
  ∧ (chat_query envA (.ok ("fine".toList)) chatReqAgent).confidence
      = meanScore (chat_query envA (.ok ("fine".toList))
          chatReqAgent).matched_documents
  ∧ (0 ≤ (chat_query envA (.ok ("fine".toList)) chatReqAgent).confidence
      ∧ (chat_query envA (.ok ("fine".toList)) chatReqAgent).confidence ≤ 1) :=
  ⟨(c6_confidence_mean envEmpty (.ok ("fine".toList)) chatReqAgent ragReqA).1
      (by decide),
   ((c6_confidence_mean envA (.ok ("fine".toList)) chatReqAgent ragReqA).2.1
      (by decide)).1 ("fine".toList) rfl,
   (c6_confidence_mean envA (.ok ("fine".toList)) chatReqAgent ragReqA).2.2.1⟩

/-- Counterexample for C6 as stated: (i) when the generative call raises,
the chat response has a non-empty grounding set whose mean similarity is
1, yet confidence 0.0 — confidence does not equal the mean; (ii) the
generic query entry point never returns at all on a non-empty grounding
set (it raises `AttributeError` on the missing `chunk_snippet`
attribute). -/
theorem c6_confidence_mean_cex :
    (chat_query envA (.error ("boom".toList)) chatReqAgent).matched_documents ≠ []
  ∧ (chat_query envA (.error ("boom".toList)) chatReqAgent).confidence = 0
  ∧ meanScore (chat_query envA (.error ("boom".toList))
      chatReqAgent).matched_documents = 1
  ∧ ((0 : ℚ) ≠ 1)
  ∧ (rag_query envA (.ok ("fine".toList)) ragReqA).toOption = none := by
  refine ⟨by decide, by decide, ?_, by norm_num, by decide⟩
  have hscores : (chat_query envA (.error ("boom".toList))
      chatReqAgent).matched_documents.map (fun r => r.similarity_score)
      = [clamp01 (1 - 0)] := rfl
  have hlen : (chat_query envA (.error ("boom".toList))
      chatReqAgent).matched_documents.length = 1 := rfl
  rw [meanScore, hscores, hlen]
  have h1 : clamp01 (1 - 0) = (1 : ℚ) := by
    rw [clamp01, show (1 : ℚ) - 0 = 1 by norm_num, min_self,
      max_eq_right (by norm_num : (0 : ℚ) ≤ 1)]
  rw [h1]
  norm_num

/-- Claim C9: a chat call whose role is neither `agent` nor `technician`
(case-insensitively) returns a normal response — the function is total,
no exception path exists — whose answer is the descriptive rejection
message, with no matched documents and confidence 0.0. -/
theorem c9_invalid_role_rejection (env : Env) (gen : Except Str Str)
    (req : ChatReq) (h1 : toLowerStr req.user_role ≠ catAgent)
    (h2 : toLowerStr req.user_role ≠ catTechnician) :
    (chat_query env gen req).answer = invalidRoleAnswer
  ∧ (chat_query env gen req).matched_documents = []
  ∧ (chat_query env gen req).confidence = 0
  ∧ (chat_query env gen req).model_used = ollamaModel := by
  have h : roleCategory req.user_role = none := by
    simp [roleCategory, h1, h2]
  simp [chat_query, h]

/-- A chat request with an unrecognized role. -/
def chatReqAdmin : ChatReq :=
  { query := "What is the mission status".toList, user_role := "admin".toList }

/-- Witness for C9 at role `admin`. -/
theorem c9_invalid_role_rejection_witness :
    (chat_query envA (.ok ("fine".toList)) chatReqAdmin).answer = invalidRoleAnswer
  ∧ (chat_query envA (.ok ("fine".toList)) chatReqAdmin).matched_documents = []
  ∧ (chat_query envA (.ok ("fine".toList)) chatReqAdmin).confidence = 0
  ∧ (chat_query envA (.ok ("fine".toList)) chatReqAdmin).model_used = ollamaModel :=
  c9_invalid_role_rejection envA (.ok ("fine".toList)) chatReqAdmin
    (by decide) (by decide)

/-! ## Lemmas about the page service -/

/-- A failed `add_chunks` never touches the store. -/
theorem add_chunks_vs_of_fail (raiseE : Option Str) (pid : Str)
    (chunks : List Str) (title : Str) (embs : List Vec)
    (md : Option (List Meta)) (vs : VS)
    (h : (add_chunks raiseE pid chunks title embs md vs).1.success = false) :
    (add_chunks raiseE pid chunks title embs md vs).2 = vs := by
  by_cases h0 : chunks = [] ∨ embs = []
  · unfold add_chunks
    rw [if_pos h0]
  · by_cases h1 : chunks.length ≠ embs.length
    · unfold add_chunks
      rw [if_neg h0, if_pos h1]
    · unfold add_chunks at h ⊢
      rw [if_neg h0, if_neg h1] at h ⊢
      cases hc : collectionAdd raiseE (addIds pid chunks.length) embs
          (stampMeta pid title (padMeta chunks.length (md.getD [])))
          chunks vs with
      | ok vs1 =>
        rw [hc] at h
        cases h
      | error e =>
        rfl

/-- A raised backend exception always fails `add_chunks`. -/
theorem add_chunks_fail_of_raise (exn : Str) (pid : Str) (chunks : List Str)
    (title : Str) (embs : List Vec) (md : Option (List Meta)) (vs : VS) :
    (add_chunks (some exn) pid chunks title embs md vs).1.success = false := by
  by_cases h0 : chunks = [] ∨ embs = []
  · unfold add_chunks
    rw [if_pos h0]
  · by_cases h1 : chunks.length ≠ embs.length
    · unfold add_chunks
      rw [if_neg h0, if_pos h1]
    · unfold add_chunks
      rw [if_neg h0, if_neg h1]
      rfl

/-- Looking up a freshly inserted page after a status flip. -/
theorem findPage_setStatus_append (db : DB) (doc : Page) (pid s : Str)
    (hfresh : ∀ p ∈ db, p.id ≠ pid) (hdoc : doc.id = pid) :
    findPage (setStatus (db ++ [doc]) pid s) pid
      = some { doc with status := s } := by
  induction db with
  | nil =>
    simp only [List.nil_append, setStatus, List.map_cons, List.map_nil,
      if_pos hdoc, findPage, List.find?]
    rw [decide_eq_true (by simpa using hdoc)]
  | cons p rest ih =>
    have hp : p.id ≠ pid := hfresh p (by simp)
    simp only [List.cons_append, setStatus, List.map_cons] at *
    rw [if_neg hp]
    simp only [findPage, List.find?]
    rw [decide_eq_false hp]
    exact ih (fun x hx => hfresh x (List.mem_cons_of_mem _ hx))

/-- Claim C5 (amended): the `create` pipeline segments and embeds
*first*; only then does it persist the record with status `indexing`,
write the index, and flip the status.  On an index-write failure the
record remains — chunk-less — with status `error` and `create` returns
failure; on success the status becomes `indexed` and the chunk count is
reported. -/
theorem c5_create_pipeline_order (be : EmbedBackend) (addRaise : Option Str)
    (newId : Str) (pd : PageCreate) (db : DB) (vs : VS)
    (chunks : List Str) (embs : List Vec)
    (hpc : process_content be pd.content 500 100 = .ok (chunks, embs))
    (hfreshDb : ∀ p ∈ db, p.id ≠ newId)
    (hfreshVs : ∀ e ∈ vs, e.meta.page_id ≠ newId) :
    ((create_page be addRaise newId pd db vs).2.2.2
        = [.processContentEv, .insertDocEv ("indexing".toList), .addChunksEv,
           .setStatusEv (if (create_page be addRaise newId pd db vs).1.success
             then "indexed".toList else "error".toList)])
  ∧ ((create_page be addRaise newId pd db vs).1.success = false →
       (∃ p, findPage (create_page be addRaise newId pd db vs).2.1 newId = some p
          ∧ p.status = "error".toList ∧ p.content = pd.content
          ∧ p.chunk_count = chunks.length)
       ∧ (create_page be addRaise newId pd db vs).2.2.1 = vs
       ∧ ∀ e ∈ (create_page be addRaise newId pd db vs).2.2.1,
           e.meta.page_id ≠ newId)
  ∧ ((create_page be addRaise newId pd db vs).1.success = true →
       (∃ p, findPage (create_page be addRaise newId pd db vs).2.1 newId = some p
          ∧ p.status = "indexed".toList ∧ p.content = pd.content)
       ∧ (create_page be addRaise newId pd db vs).1.chunks_created
           = chunks.length)
  ∧ (∀ exn, addRaise = some exn →
       (create_page be addRaise newId pd db vs).1.success = false) := by
  simp only [create_page, hpc]
  by_cases hav : (add_chunks addRaise newId chunks pd.title embs
      (some (chunks.map (fun _ => createMeta pd newId))) vs).1.success = true
  · rw [if_pos hav]
    refine ⟨by simp, by simp, ?_, ?_⟩
    · intro _
      refine ⟨⟨_, findPage_setStatus_append db _ newId _ hfreshDb rfl, rfl, rfl⟩, rfl⟩
    · intro exn hexn
      subst hexn
      exact absurd hav (by simp [add_chunks_fail_of_raise])
  · rw [if_neg hav]
    have havf : (add_chunks addRaise newId chunks pd.title embs
        (some (chunks.map (fun _ => createMeta pd newId))) vs).1.success = false := by
      simpa using hav
    have hvs := add_chunks_vs_of_fail addRaise newId chunks pd.title embs
      (some (chunks.map (fun _ => createMeta pd newId))) vs havf
    refine ⟨by simp, ?_, by simp, fun _ _ => rfl⟩
    intro _
    refine ⟨⟨_, findPage_setStatus_append db _ newId _ hfreshDb rfl, rfl, rfl, rfl⟩,
      hvs, ?_⟩
    rw [hvs]
    exact hfreshVs

/-- The concrete page used for the create-pipeline counterexample. -/
def pdC5 : PageCreate :=
  { title := "Field manual".toList, content := "Report complete.".toList,
    category := catAgent }

/-- Counterexample for C5 as stated: in a successful concrete run the
*first* pipeline event is content processing (segmentation + embedding);
the record insert with status `indexing` only happens afterwards, so the
claimed order (persist first, then segment, then embed) is false. -/
theorem c5_create_pipeline_order_cex :
    (create_page beOK none ("p5".toList) pdC5 [] []).2.2.2
      = [.processContentEv, .insertDocEv ("indexing".toList), .addChunksEv,
         .setStatusEv ("indexed".toList)]
  ∧ ((create_page beOK none ("p5".toList) pdC5 [] []).2.2.2.head?
      = some .processContentEv)
  ∧ Ev.processContentEv ≠ .insertDocEv ("indexing".toList) := by
  exact ⟨by decide, by decide, by decide⟩

/-- Witness for C5 (amended) at a concrete successful run and a concrete
failing index write. -/
theorem c5_create_pipeline_order_witness :
    ((create_page beOK none ("p5".toList) pdC5 [] []).1.success = true →
       (∃ p, findPage (create_page beOK none ("p5".toList) pdC5 [] []).2.1
            ("p5".toList) = some p
          ∧ p.status = "indexed".toList ∧ p.content = pdC5.content)
       ∧ (create_page beOK none ("p5".toList) pdC5 [] []).1.chunks_created
           = [("Report complete.".toList)].length)
  ∧ ((create_page beOK (some ("chroma down".toList)) ("p5".toList) pdC5 [] []).1.success
        = false →
       (∃ p, findPage (create_page beOK (some ("chroma down".toList))
            ("p5".toList) pdC5 [] []).2.1 ("p5".toList) = some p
          ∧ p.status = "error".toList ∧ p.content = pdC5.content
          ∧ p.chunk_count = [("Report complete.".toList)].length)
       ∧ (create_page beOK (some ("chroma down".toList)) ("p5".toList) pdC5 [] []).2.2.1
           = []
       ∧ ∀ e ∈ (create_page beOK (some ("chroma down".toList))
            ("p5".toList) pdC5 [] []).2.2.1, e.meta.page_id ≠ ("p5".toList)) :=
  ⟨(c5_create_pipeline_order beOK none ("p5".toList) pdC5 [] []
      [("Report complete.".toList)] [[]]
      (by decide) (by decide) (by decide)).2.2.1,
   (c5_create_pipeline_order beOK (some ("chroma down".toList)) ("p5".toList)
      pdC5 [] [] [("Report complete.".toList)] [[]]
      (by decide) (by decide) (by decide)).2.1⟩

/-- Claim C8 (amended): if an update changes the content and the
re-index step fails — either because chunking/embedding raised, or
because the index write raised after the old chunks were deleted — then
the update reports failure, the old chunks are gone and no new chunks
exist (the document is chunk-less), and the document record is left
*entirely unchanged*: none of the update's field changes reach it. -/
theorem c8_update_reindex_failure (be : EmbedBackend) (addRaise : Option Str)
    (pid : Str) (upd : PageUpdate) (db : DB) (vs : VS) (ex : Page) (c : Str)
    (hex : findPage db pid = some ex)
    (hc : upd.content = some c) (hcne : c ≠ []) (hdiff : c ≠ ex.content) :
    (∀ e, process_content be c 500 100 = .error e →
       (update_page be addRaise pid upd db vs).1.success = false
       ∧ (update_page be addRaise pid upd db vs).2.1 = db
       ∧ ∀ en ∈ (update_page be addRaise pid upd db vs).2.2,
           en.meta.page_id ≠ pid)
  ∧ (∀ chunks embs exn, process_content be c 500 100 = .ok (chunks, embs) →
       addRaise = some exn →
       (update_page be addRaise pid upd db vs).1.success = false
       ∧ (update_page be addRaise pid upd db vs).2.1 = db
       ∧ ∀ en ∈ (update_page be addRaise pid upd db vs).2.2,
           en.meta.page_id ≠ pid) := by
  have hdel : ∀ en ∈ (delete_chunks pid vs).2, en.meta.page_id ≠ pid := by
    intro en hen
    simp only [delete_chunks] at hen
    have := List.mem_filter.mp hen
    simpa using this.2
  have hcond : (decide (c ≠ []) && decide (c ≠ ex.content)) = true := by
    simp [hcne, hdiff]
  constructor
  · intro e hpc
    simp only [update_page, hex, hc, hpc]
    rw [if_pos hcond]
    exact ⟨rfl, rfl, hdel⟩
  · intro chunks embs exn hpc hraise
    subst hraise
    have havf := add_chunks_fail_of_raise exn pid chunks
      (match upd.title with
        | some t => if t = [] then ex.title else t
        | none => ex.title) embs
      (some (List.replicate chunks.length (updateMeta ex upd pid)))
      (delete_chunks pid vs).2
    have hvs := add_chunks_vs_of_fail (some exn) pid chunks
      (match upd.title with
        | some t => if t = [] then ex.title else t
        | none => ex.title) embs
      (some (List.replicate chunks.length (updateMeta ex upd pid)))
      (delete_chunks pid vs).2 havf
    have havf1 := add_chunks_fail_of_raise exn pid chunks
      (match upd.title with
        | some t => if t ≠ [] then t else ex.title
        | none => ex.title) embs
      (some (chunks.map (fun _ => updateMeta ex upd pid)))
      (delete_chunks pid vs).2
    have hvs1 := add_chunks_vs_of_fail (some exn) pid chunks
      (match upd.title with
        | some t => if t ≠ [] then t else ex.title
        | none => ex.title) embs
      (some (chunks.map (fun _ => updateMeta ex upd pid)))
      (delete_chunks pid vs).2 havf1
    simp only [update_page, hex, hc, hpc]
    rw [if_pos hcond, if_neg (by simp [havf])]
    refine ⟨rfl, rfl, ?_⟩
    intro en hen
    rw [hvs1] at hen
    exact hdel en hen

/-- The concrete update used for the C8 counterexample. -/
def updC8 : PageUpdate :=
  { title := some ("New title".toList),
    content := some ("Fresh content here.".toList) }

/-- Counterexample for C8 as stated: in a concrete failed re-index the
document record is *not* changed at all — the update's title change is
not applied, even partially — while the old chunks are gone and no new
ones were written. -/
theorem c8_update_reindex_failure_cex :
    (update_page beOK (some ("chroma down".toList)) ("p1".toList) updC8
      [pageP1] [entryP1]).1.success = false
  ∧ (update_page beOK (some ("chroma down".toList)) ("p1".toList) updC8
      [pageP1] [entryP1]).2.1 = [pageP1]
  ∧ pageP1.title ≠ ("New title".toList)
  ∧ (update_page beOK (some ("chroma down".toList)) ("p1".toList) updC8
      [pageP1] [entryP1]).2.2 = [] := by
  exact ⟨by decide, by decide, by decide, by decide⟩

/-- Witness for C8 (amended) at the same concrete failing run. -/
theorem c8_update_reindex_failure_witness :
    (update_page beOK (some ("chroma down".toList)) ("p1".toList) updC8
      [pageP1] [entryP1]).1.success = false
  ∧ (update_page beOK (some ("chroma down".toList)) ("p1".toList) updC8
      [pageP1] [entryP1]).2.1 = [pageP1]
  ∧ ∀ en ∈ (update_page beOK (some ("chroma down".toList)) ("p1".toList) updC8
      [pageP1] [entryP1]).2.2, en.meta.page_id ≠ ("p1".toList) :=
  (c8_update_reindex_failure beOK (some ("chroma down".toList)) ("p1".toList)
      updC8 [pageP1] [entryP1] pageP1 ("Fresh content here.".toList)
      (by decide) (by decide) (by decide) (by decide)).2
    [("Fresh content here.".toList)] [[]] ("chroma down".toList)
    (by decide) rfl
